import Mathlib

/-!
Verification development for the Gently checkpoint engine.

Python strings are modelled as `List Char` (sequences of Unicode code
points, matching Python 3 string semantics).  Python `int` fields are
modelled as `Nat`, following the declared non-negative domains of the
data model.  Mutable objects are modelled by explicit state passing;
the Python object aliasing between `Project.artifacts` and
`Project.bucket` is captured by letting the bucket hold indices into
the artifact list.  Fallible code returns `Option` / `Except`.
-/

/-- Python `str.split(sep)` for a one-character separator. -/
def pySplit (sep : Char) : List Char → List (List Char)
  | [] => [[]]
  | c :: rest =>
    if c = sep then [] :: pySplit sep rest
    else
      match pySplit sep rest with
      | h :: t => (c :: h) :: t
      | [] => [[c]]

/-- Python `sep.join(parts)` for a one-character separator. -/
def pyJoin (sep : Char) : List (List Char) → List Char
  | [] => []
  | [p] => p
  | p :: ps => p ++ sep :: pyJoin sep ps

/-- Python `str.replace(a, b)` for one-character arguments. -/
def pyReplace (a b : Char) (s : List Char) : List Char :=
  s.map (fun c => if c = a then b else c)

/-- Python `str.startswith(pre)`. -/
def pyStartsWith : List Char → List Char → Bool
  | [], _ => true
  | _ :: _, [] => false
  | p :: ps, c :: cs => p = c && pyStartsWith ps cs

/-- Python `str.endswith(c)` for a one-character argument. -/
def pyEndsWith (c : Char) (s : List Char) : Bool :=
  match s.getLast? with
  | some d => d = c
  | none => false

/-- The decimal digit character for `k` (`0 ≤ k ≤ 9`). -/
def digitChar (k : Nat) : Char := Char.ofNat (48 + k)

/-- Fuel-driven rendering of a natural number in decimal (structural
recursion so that concrete instances reduce by `decide`/`rfl`). -/
def natToCharsAux : Nat → Nat → List Char
  | 0, _ => []
  | fuel + 1, n =>
    if n < 10 then [digitChar n]
    else natToCharsAux fuel (n / 10) ++ [digitChar (n % 10)]

/-- Python `str(n)` for a natural number. -/
def natToChars (n : Nat) : List Char := natToCharsAux (n + 1) n

/-- Numeric value of a decimal digit character, if it is one. -/
def digitVal (c : Char) : Option Nat :=
  if 48 ≤ c.toNat ∧ c.toNat ≤ 57 then some (c.toNat - 48) else none

/-- Accumulating decimal parse over a digit string. -/
def parseNatGo : List Char → Nat → Option Nat
  | [], acc => some acc
  | c :: rest, acc =>
    match digitVal c with
    | some d => parseNatGo rest (10 * acc + d)
    | none => none

/-- Python `int(s)` on the inputs this codec produces: a non-empty
all-digit string; anything else raises (`none`). -/
def parseNat (s : List Char) : Option Nat :=
  match s with
  | [] => none
  | _ => parseNatGo s 0

/-- Python `ref.rsplit(sep2, 1)` for the two-character separator
`"@d"`: split at the rightmost occurrence, `none` when absent
(mirrors the `'@d' in ref` guard). -/
def rsplitAD : List Char → Option (List Char × List Char)
  | [] => none
  | a :: rest =>
    match rsplitAD rest with
    | some (l, r) => some (a :: l, r)
    | none =>
      if a = '@' then
        match rest with
        | 'd' :: tail => some ([], tail)
        | _ => none
      else none

/-- Tag glyph `🌿` (branch). -/
def tagBranch : Char := Char.ofNat 0x1F33F
/-- Tag glyph `📍` (depth). -/
def tagDepth : Char := Char.ofNat 0x1F4CD
/-- Tag glyph `⬆` (parent reference). -/
def tagParent : Char := Char.ofNat 0x2B06
/-- Tag glyph `⚡` (conversation state). -/
def tagState : Char := Char.ofNat 0x26A1
/-- Tag glyph `🔒` (gate snapshot). -/
def tagGates : Char := Char.ofNat 0x1F512
/-- Tag glyph `📌` (pin). -/
def tagPin : Char := Char.ofNat 0x1F4CC
/-- Tag glyph `👁` (look). -/
def tagLook : Char := Char.ofNat 0x1F441
/-- Tag glyph `🔗` (chain). -/
def tagChain : Char := Char.ofNat 0x1F517
/-- Tag glyph `⏱` (timestamp). -/
def tagTime : Char := Char.ofNat 0x23F1

/-- Gate glyph `○` (open). -/
def glyphOpen : Char := Char.ofNat 0x25CB
/-- Gate glyph `◐` (half). -/
def glyphHalf : Char := Char.ofNat 0x25D0
/-- Gate glyph `●` (yes). -/
def glyphYes : Char := Char.ofNat 0x25CF
/-- Gate glyph `✕` (no). -/
def glyphNo : Char := Char.ofNat 0x2715
/-- Gate glyph `◈` (blocked). -/
def glyphBlocked : Char := Char.ofNat 0x25C8
/-- Gate glyph `↺` (revisit). -/
def glyphRevisit : Char := Char.ofNat 0x21BA

namespace StampPy

/-- `stamp.py` `GATE_CYCLE`: the four cyclic gate states. -/
def GATE_CYCLE : List (List Char) :=
  [[glyphOpen], [glyphHalf], [glyphYes], [glyphNo]]

/-- `stamp.py` `Gate` dataclass. -/
structure SGate where
  letter : List Char
  question : List Char
  state : List Char := [glyphOpen]
deriving DecidableEq, Repr

/-- `stamp.py` `Gate.cycle` acting on the state string. -/
def cycleState (s : List Char) : List Char :=
  let idx := (GATE_CYCLE.indexOf? s).getD 0
  GATE_CYCLE.getD ((idx + 1) % GATE_CYCLE.length) []

/-- `stamp.py` `Gate.cycle`. -/
def SGate.cycle (g : SGate) : SGate := { g with state := cycleState g.state }

/-- `stamp.py` `Gate.compact`. -/
def SGate.compact (g : SGate) : List Char := g.letter ++ g.state

/-- `stamp.py` `Stamp` dataclass. -/
structure Stamp where
  branch : List Char := []
  depth : Nat := 0
  max_depth : Nat := 0
  parent : List Char := []
  parent_depth : Nat := 0
  state : List Char := "OPEN".data
  gates : List SGate := []
  pin : List Char := []
  look : List Char := []
  chain : List Char := []
  timestamp : List Char := []
deriving DecidableEq, Repr

/-- `stamp.py` `Stamp.compact`; `ts` is the `datetime.now().strftime`
result, made an explicit argument. -/
def Stamp.compact (s : Stamp) (ts : List Char) : List Char :=
  let gate_str := (s.gates.map SGate.compact).flatten
  let parent_str :=
    if s.parent ≠ [] then s.parent ++ '@' :: 'd' :: natToChars s.parent_depth
    else []
  let pin_short :=
    if s.pin ≠ [] then pyReplace ' ' '-' (s.pin.take 30) else []
  let parts : List (List Char) :=
    [ "OLO".data,
      if s.branch ≠ [] then tagBranch :: s.branch else [],
      tagDepth :: (natToChars s.depth ++ '/' :: natToChars s.max_depth),
      if parent_str ≠ [] then tagParent :: parent_str else [],
      tagState :: s.state,
      if gate_str ≠ [] then tagGates :: gate_str else [],
      if pin_short ≠ [] then tagPin :: pin_short else [],
      if s.look ≠ [] then tagLook :: s.look else [],
      if s.chain ≠ [] then tagChain :: s.chain else [],
      tagTime :: ts ]
  '[' :: (pyJoin '|' (parts.filter (· ≠ [])) ++ [']'])

/-- The gate-snapshot decoding loop of `Stamp.parse_compact`. -/
def parseGates : List Char → List SGate
  | a :: b :: rest => ⟨[a], [], [b]⟩ :: parseGates rest
  | _ => []

/-- One iteration of the `for part in parts` dispatch loop of
`Stamp.parse_compact`; `Except.error` models a raised exception. -/
def applyPart (st : Stamp) (part : List Char) : Except Unit Stamp :=
  if part = "OLO".data then .ok st
  else
    match part with
    | [] => .ok st
    | c :: rest =>
      if c = tagBranch then .ok { st with branch := rest }
      else if c = tagDepth then
        let nums := pySplit '/' rest
        match parseNat (nums.headD []) with
        | none => .error ()
        | some d =>
          if nums.length > 1 then
            match parseNat (nums.getD 1 []) with
            | none => .error ()
            | some m => .ok { st with depth := d, max_depth := m }
          else .ok { st with depth := d, max_depth := 0 }
      else if c = tagParent then
        match rsplitAD rest with
        | some (name, dp) =>
          match parseNat dp with
          | none => .error ()
          | some n => .ok { st with parent := name, parent_depth := n }
        | none => .ok { st with parent := rest }
      else if c = tagState then .ok { st with state := rest }
      else if c = tagGates then .ok { st with gates := st.gates ++ parseGates rest }
      else if c = tagPin then .ok { st with pin := pyReplace '-' ' ' rest }
      else if c = tagLook then .ok { st with look := rest }
      else if c = tagChain then .ok { st with chain := rest }
      else if c = tagTime then .ok { st with timestamp := rest }
      else .ok st

/-- The full dispatch loop of `Stamp.parse_compact`. -/
def runParts (st : Stamp) : List (List Char) → Except Unit Stamp
  | [] => .ok st
  | p :: ps =>
    match applyPart st p with
    | .ok st' => runParts st' ps
    | .error e => .error e

/-- `stamp.py` `Stamp.parse_compact`.  `Except.error` models a raised
exception; `.ok none` is Python's `return None`. -/
def parse_compact (line : List Char) : Except Unit (Option Stamp) :=
  if pyStartsWith ("[OLO|".data) line && pyEndsWith ']' line then
    let inner := (line.drop 1).dropLast
    let parts := pySplit '|' inner
    match runParts {} parts with
    | .ok st => .ok (some st)
    | .error e => .error e
  else .ok none

end StampPy

namespace TiersPy

/-- `gently_tiers.py` `ForkType` enum. -/
inductive ForkType where
  | EXPLORE | PIVOT | REFINE | CHALLENGE | MERGE | DEAD
deriving DecidableEq, Repr

/-- `.value` of `ForkType`. -/
def ForkType.value : ForkType → List Char
  | .EXPLORE => "explore".data
  | .PIVOT => "pivot".data
  | .REFINE => "refine".data
  | .CHALLENGE => "challenge".data
  | .MERGE => "merge".data
  | .DEAD => "dead".data

/-- `gently_tiers.py` `GateState` enum. -/
inductive GateState where
  | OPEN | HALF | YES | NO | REVISIT
deriving DecidableEq, Repr

/-- `.value` of `GateState` (the glyph, a one-character string). -/
def GateState.value : GateState → List Char
  | .OPEN => [glyphOpen]
  | .HALF => [glyphHalf]
  | .YES => [glyphYes]
  | .NO => [glyphNo]
  | .REVISIT => [glyphRevisit]

/-- `gently_tiers.py` `ConvState` enum. -/
inductive ConvState where
  | OPEN | GATE | DONE | FORK | HOLD
deriving DecidableEq, Repr

/-- `.value` of `ConvState`. -/
def ConvState.value : ConvState → List Char
  | .OPEN => "OPEN".data
  | .GATE => "GATE".data
  | .DONE => "DONE".data
  | .FORK => "FORK".data
  | .HOLD => "HOLD".data

/-- `gently_tiers.py` `ArtifactOrigin` enum. -/
inductive ArtifactOrigin where
  | MANUAL | TIER_AUTO | EDITED | INJECTED
deriving DecidableEq, Repr

/-- `gently_tiers.py` `Gate` dataclass. -/
structure TGate where
  letter : List Char
  question : List Char
  state : GateState := .OPEN
deriving DecidableEq, Repr

/-- The `order` list in `Gate.cycle`. -/
def gateOrder : List GateState := [.OPEN, .HALF, .YES, .NO]

/-- `gently_tiers.py` `Gate.cycle`: advance along `order` when the
state is in it, otherwise leave the gate unchanged. -/
def TGate.cycle (g : TGate) : TGate :=
  if g.state ∈ gateOrder then
    { g with state := gateOrder.getD ((gateOrder.indexOf g.state + 1) % gateOrder.length) .OPEN }
  else g

/-- `gently_tiers.py` `Gate.sym`. -/
def TGate.sym (g : TGate) : List Char := g.letter ++ g.state.value

/-- The dict produced by `Gate.snapshot` (a by-value copy). -/
structure GateSnap where
  letter : List Char
  question : List Char
  state : List Char
deriving DecidableEq, Repr

/-- `gently_tiers.py` `Gate.snapshot`. -/
def TGate.snapshot (g : TGate) : GateSnap :=
  ⟨g.letter, g.question, g.state.value⟩

/-- `gently_tiers.py` `Branch` dataclass. -/
structure Branch where
  id : List Char
  name : List Char
  fork_type : ForkType
  forked_at_depth : Nat
  depth : Nat := 0
  conv_state : ConvState := .OPEN
  pin : List Char := []
  stamp_at_fork : List Char := []
deriving DecidableEq, Repr

/-- The fork-type glyph table in `Branch.summary` (`.get(value, '?')`;
the table covers every `ForkType`, so the default is unreachable). -/
def ftGlyph : ForkType → Char
  | .EXPLORE => Char.ofNat 0x2192
  | .PIVOT => Char.ofNat 0x21BB
  | .CHALLENGE => Char.ofNat 0x2694
  | .REFINE => Char.ofNat 0x25B7
  | .MERGE => Char.ofNat 0x2727
  | .DEAD => glyphNo

/-- `gently_tiers.py` `Branch.summary`. -/
def Branch.summary (b : Branch) : List Char :=
  let status :=
    if b.conv_state = ConvState.DONE then glyphYes
    else if b.depth > 0 then glyphHalf
    else glyphOpen
  status :: ' ' :: ftGlyph b.fork_type :: ' ' :: b.name
    ++ " [d=".data ++ natToChars b.depth ++ "] \"".data ++ b.pin ++ "\"".data

/-- `gently_tiers.py` `Artifact` dataclass. -/
structure TArtifact where
  id : List Char
  name : List Char
  content : List Char
  origin : ArtifactOrigin
  source_tier : Nat
  source_branch : Option (List Char)
  gate_snapshot : List GateSnap := []
  stamp_at_creation : List Char := []
  status : List Char := "available".data
deriving DecidableEq, Repr

instance : Inhabited TArtifact :=
  ⟨{ id := [], name := [], content := [], origin := .MANUAL,
     source_tier := 0, source_branch := none }⟩

/-- `gently_tiers.py` `Tier` dataclass. -/
structure Tier where
  level : Nat
  master_depth : Nat := 0
  master_state : ConvState := .OPEN
  master_pin : List Char := []
  branches : List Branch := []
  frozen : Bool := false
  frozen_stamp : List Char := []
  promoted_by : List Char := []
deriving DecidableEq, Repr

instance : Inhabited Tier := ⟨{ level := 0 }⟩

/-- `gently_tiers.py` `Tier.make_stamp`; `ts` is the
`datetime.now().strftime` result, made an explicit argument. -/
def Tier.make_stamp (t : Tier) (ts project_id : List Char) (gates : List TGate) : List Char :=
  let gs := (gates.map TGate.sym).flatten
  let pin :=
    if t.master_pin ≠ [] then pyReplace ' ' '-' (t.master_pin.take 25) else []
  let parts : List (List Char) :=
    [ "OLO".data,
      tagBranch :: 't' :: (natToChars t.level ++ '/' :: project_id),
      tagDepth :: natToChars t.master_depth,
      tagState :: t.master_state.value,
      if gs ≠ [] then tagGates :: gs else [],
      if pin ≠ [] then tagPin :: pin else [] ]
  let parts := if t.level > 0 then parts ++ [tagParent :: 't' :: natToChars (t.level - 1)] else parts
  let parts := parts ++ [tagTime :: ts]
  '[' :: (pyJoin '|' (parts.filter (· ≠ [])) ++ [']'])

/-- `gently_tiers.py` `Project` dataclass.  `bucket` holds references
to artifact objects in Python; that aliasing is modelled by storing
indices into `artifacts`. -/
structure Project where
  id : List Char
  name : List Char
  color : List Char
  gates : List TGate := []
  tiers : List Tier := []
  artifacts : List TArtifact := []
  bucket : List Nat := []
deriving DecidableEq, Repr

/-- Index of the last (highest-index) unfrozen tier, if any —
the search `for t in reversed(self.tiers): if not t.frozen`. -/
def lastUnfrozen : List Tier → Option Nat
  | [] => none
  | t :: rest =>
    match lastUnfrozen rest with
    | some j => some (j + 1)
    | none => if t.frozen then none else some 0

/-- `gently_tiers.py` `Project._new_tier`: append a fresh tier at
`level = len(tiers)`; returns its index and the new state. -/
def Project.new_tier (p : Project) : Nat × Project :=
  (p.tiers.length, { p with tiers := p.tiers ++ [{ level := p.tiers.length }] })

/-- `gently_tiers.py` `Project.current_tier`: the active (unfrozen)
tier, creating one when all are frozen; returns its index and the
possibly-extended state. -/
def Project.current_tier (p : Project) : Nat × Project :=
  match lastUnfrozen p.tiers with
  | some i => (i, p)
  | none => p.new_tier

/-- `gently_tiers.py` `Project.init_project`. -/
def Project.init_project (p : Project) : Project :=
  if p.tiers = [] then p.new_tier.2 else p

/-- `gently_tiers.py` `Project.branch_from_master`. -/
def Project.branch_from_master (p : Project) (ts name : List Char)
    (ft : ForkType) : Branch × Project :=
  let (i, p₁) := p.current_tier
  let tier := p₁.tiers.getD i default
  let branch : Branch :=
    { id := 'b' :: natToChars tier.branches.length ++ '-' :: name,
      name := name,
      fork_type := ft,
      forked_at_depth := tier.master_depth,
      stamp_at_fork := tier.make_stamp ts p₁.id p₁.gates }
  (branch, { p₁ with tiers := p₁.tiers.set i { tier with branches := tier.branches ++ [branch] } })

/-- `gently_tiers.py` `Project.collect_artifact`.  Note: the branch id
is stored but never validated. -/
def Project.collect_artifact (p : Project) (ts branch_id name content : List Char) :
    TArtifact × Project :=
  let (i, p₁) := p.current_tier
  let tier := p₁.tiers.getD i default
  let art : TArtifact :=
    { id := "art-".data ++ natToChars p₁.artifacts.length,
      name := name,
      content := content,
      origin := .MANUAL,
      source_tier := tier.level,
      source_branch := some branch_id,
      gate_snapshot := p₁.gates.map TGate.snapshot,
      stamp_at_creation := tier.make_stamp ts p₁.id p₁.gates }
  (art, { p₁ with artifacts := p₁.artifacts ++ [art],
                  bucket := p₁.bucket ++ [p₁.artifacts.length] })

/-- The artifact lookup in `Project.inject`:
`next((a for a in self.bucket if a.id == artifact_id), None)`,
returning the bucket entry's index into `artifacts`. -/
def bucketFind (arts : List TArtifact) : List Nat → List Char → Option Nat
  | [], _ => none
  | j :: rest, aid =>
    match arts.get? j with
    | some a => if a.id = aid then some j else bucketFind arts rest aid
    | none => bucketFind arts rest aid

/-- `gently_tiers.py` `Project.inject`; `ts` is the
`datetime.now().strftime` result, made an explicit argument.  Returns
(`(new tier index, auto artifact)` or `None`, new state). -/
def Project.inject (p : Project) (ts aid : List Char) :
    Option (Nat × TArtifact) × Project :=
  match bucketFind p.artifacts p.bucket aid with
  | none => (none, p)
  | some j =>
    let art := p.artifacts.getD j default
    let art' := { art with status := "injected".data }
    let p₀ := { p with artifacts := p.artifacts.set j art' }
    let (i, p₁) := p₀.current_tier
    let old := p₁.tiers.getD i default
    let old' : Tier :=
      { old with frozen := true,
                 frozen_stamp := old.make_stamp ts p₁.id p₁.gates,
                 promoted_by := aid }
    let p₂ := { p₁ with tiers := p₁.tiers.set i old' }
    let branch_pins := old'.branches.map (fun b => "  ".data ++ b.summary)
    let auto_content :=
      "=== TIER ".data ++ natToChars old'.level ++ " CONCLUSION ===\n".data
        ++ "Master was at depth ".data ++ natToChars old'.master_depth
        ++ ", state ".data ++ old'.master_state.value ++ "\n".data
        ++ "Master pin: \"".data ++ old'.master_pin ++ "\"\n".data
        ++ "Gates: ".data ++ pyJoin ' ' (p₂.gates.map TGate.sym) ++ "\n".data
        ++ "\n".data
        ++ "Branches explored:\n".data
        ++ pyJoin '\n' branch_pins ++ "\n".data
        ++ "\n".data
        ++ "Promoted by: ".data ++ art'.name ++ "\n".data
        ++ "Injected content: ".data ++ art'.content.take 100 ++ "...\n".data
        ++ "\n".data
        ++ "Frozen stamp: ".data ++ old'.frozen_stamp
    let auto : TArtifact :=
      { id := "tier-".data ++ natToChars old'.level ++ "-auto".data,
        name := "Tier ".data ++ natToChars old'.level ++ ": ".data ++ old'.master_pin,
        content := auto_content,
        origin := .TIER_AUTO,
        source_tier := old'.level,
        source_branch := none,
        gate_snapshot := p₂.gates.map TGate.snapshot,
        stamp_at_creation := old'.frozen_stamp }
    let p₃ := { p₂ with artifacts := p₂.artifacts ++ [auto] }
    let (k, p₄) := p₃.new_tier
    let nt := p₄.tiers.getD k default
    let nt' := { nt with master_pin := "promoted from tier ".data ++ natToChars old'.level }
    (some (k, auto), { p₄ with tiers := p₄.tiers.set k nt' })

/-- One engine operation, as a step relation between project states. -/
inductive Step : Project → Project → Prop where
  | fork (p : Project) (ts name : List Char) (ft : ForkType) :
      Step p (p.branch_from_master ts name ft).2
  | collect (p : Project) (ts bid name content : List Char) :
      Step p (p.collect_artifact ts bid name content).2
  | injectOp (p : Project) (ts aid : List Char) :
      Step p (p.inject ts aid).2
  | curTier (p : Project) : Step p p.current_tier.2

/-- Project states reachable from a freshly constructed project after
`init_project`, by any sequence of engine operations. -/
inductive Reachable : Project → Prop where
  | init (id name color : List Char) (gates : List TGate) :
      Reachable (Project.init_project
        { id := id, name := name, color := color, gates := gates })
  | step {p p' : Project} : Reachable p → Step p p' → Reachable p'

/-- The levels of a tier list equal their indices. -/
@[reducible] def levelsIdx (l : List Tier) : Prop :=
  ∀ (i : Nat) (t : Tier), l[i]? = some t → t.level = i

/-- Structural invariant of reachable projects: the tier list is a
frozen front followed by one unfrozen tier, levels equal indices, and
every bucket entry points into the artifact list. -/
def Inv (p : Project) : Prop :=
  (∃ front last, p.tiers = front ++ [last] ∧
    (∀ t ∈ front, t.frozen = true) ∧ last.frozen = false) ∧
  levelsIdx p.tiers ∧
  (∀ j ∈ p.bucket, j < p.artifacts.length)

end TiersPy

namespace ModelPy

/-- `gently_model.py` `GateState` enum. -/
inductive GateState where
  | OPEN | HALF | YES | NO | REVISIT
deriving DecidableEq, Repr

/-- `.value` of `GateState`. -/
def GateState.value : GateState → List Char
  | .OPEN => [glyphOpen]
  | .HALF => [glyphHalf]
  | .YES => [glyphYes]
  | .NO => [glyphNo]
  | .REVISIT => [glyphRevisit]

/-- `gently_model.py` `ConvState` enum. -/
inductive ConvState where
  | OPEN | GATE | DONE | FORK | HOLD
deriving DecidableEq, Repr

/-- `.value` of `ConvState`. -/
def ConvState.value : ConvState → List Char
  | .OPEN => "OPEN".data
  | .GATE => "GATE".data
  | .DONE => "DONE".data
  | .FORK => "FORK".data
  | .HOLD => "HOLD".data

/-- `gently_model.py` `ForkType` enum. -/
inductive ForkType where
  | EXPLORE | PIVOT | REFINE | CHALLENGE | MERGE | DEAD
deriving DecidableEq, Repr

/-- `.value` of `ForkType`. -/
def ForkType.value : ForkType → List Char
  | .EXPLORE => "explore".data
  | .PIVOT => "pivot".data
  | .REFINE => "refine".data
  | .CHALLENGE => "challenge".data
  | .MERGE => "merge".data
  | .DEAD => "dead".data

/-- `gently_model.py` `ArtifactStatus` enum. -/
inductive ArtifactStatus where
  | COLLECTED | STAGED | INJECTED | EDITED
deriving DecidableEq, Repr

/-- `gently_model.py` `Gate` dataclass. -/
structure MGate where
  letter : List Char
  question : List Char
  state : GateState := .OPEN
deriving DecidableEq, Repr

/-- `gently_model.py` `Gate.symbol`. -/
def MGate.symbol (g : MGate) : List Char := g.letter ++ g.state.value

/-- `gently_model.py` `Stamp` dataclass. -/
structure MStamp where
  project_id : List Char
  branch_id : Option (List Char)
  depth : Nat
  max_depth : Nat
  conv_state : ConvState
  gates : List MGate
  pin : List Char
  parent_id : Option (List Char)
  fork_type : Option ForkType
  timestamp : List Char := []
deriving DecidableEq, Repr

/-- Tag glyph `🔀` (fork type, `gently_model.py` only). -/
def tagFork : Char := Char.ofNat 0x1F500

/-- `gently_model.py` `Stamp.compact`; `ts` is the
`datetime.now().strftime` result, made an explicit argument.
Note `branch_id or "master"` and `parent_id` truthiness: `None` and
the empty string are both falsy. -/
def MStamp.compact (s : MStamp) (ts : List Char) : List Char :=
  let gs := (s.gates.map MGate.symbol).flatten
  let branch :=
    match s.branch_id with
    | some b => if b ≠ [] then b else "master".data
    | none => "master".data
  let pin := if s.pin ≠ [] then pyReplace ' ' '-' (s.pin.take 25) else []
  let parts : List (List Char) :=
    [ "OLO".data,
      tagBranch :: (s.project_id ++ '/' :: branch),
      tagDepth :: (natToChars s.depth ++ '/' :: natToChars s.max_depth),
      tagState :: s.conv_state.value,
      if gs ≠ [] then tagGates :: gs else [],
      if pin ≠ [] then tagPin :: pin else [] ]
  let parts :=
    match s.parent_id with
    | some pid => if pid ≠ [] then parts ++ [tagParent :: (pid ++ '@' :: 'd' :: natToChars s.depth)] else parts
    | none => parts
  let parts :=
    match s.fork_type with
    | some ft => parts ++ [tagFork :: ft.value]
    | none => parts
  let parts := parts ++ [tagTime :: ts]
  '[' :: (pyJoin '|' (parts.filter (· ≠ [])) ++ [']'])

/-- `gently_model.py` `Artifact` dataclass. -/
structure MArtifact where
  id : List Char
  name : List Char
  content : List Char
  source_branch : List Char
  source_depth : Nat
  status : ArtifactStatus := .COLLECTED
  fork_type : Option ForkType := none
  stamp_at_capture : List Char := []
  edited_content : Option (List Char) := none
deriving DecidableEq, Repr

/-- `gently_model.py` `Branch` dataclass. -/
structure MBranch where
  id : List Char
  name : List Char
  fork_type : ForkType
  forked_at_depth : Nat
  stamp_at_fork : List Char
  depth : Nat := 0
  conv_state : ConvState := .OPEN
  pin : List Char := []
  artifacts : List MArtifact := []
  order : Nat := 0
deriving DecidableEq, Repr

instance : Inhabited MBranch :=
  ⟨{ id := [], name := [], fork_type := .EXPLORE, forked_at_depth := 0,
     stamp_at_fork := [] }⟩

/-- `gently_model.py` `Branch.make_stamp`. -/
def MBranch.make_stamp (b : MBranch) (project_id : List Char) (gates : List MGate) : MStamp :=
  { project_id := project_id,
    branch_id := some b.id,
    depth := b.depth,
    max_depth := b.depth,
    conv_state := b.conv_state,
    gates := gates,
    pin := b.pin,
    parent_id := some ("master".data),
    fork_type := some b.fork_type }

/-- `gently_model.py` `MasterChat` dataclass. -/
structure MasterChat where
  depth : Nat := 0
  max_depth : Nat := 0
  conv_state : ConvState := .OPEN
  pin : List Char := []
deriving DecidableEq, Repr

/-- `gently_model.py` `Project` dataclass.  As in `TiersPy.Project`,
the bucket stores indices; here they index the owning branch and the
position in that branch's `artifacts` list, capturing the aliasing of
artifact objects between `branch.artifacts` and `bucket`. -/
structure MProject where
  id : List Char
  name : List Char
  color : List Char
  master : MasterChat := {}
  branches : List MBranch := []
  gates : List MGate := []
  bucket : List (Nat × Nat) := []
deriving DecidableEq, Repr

/-- The branch lookup in `collect_from_branch`:
`next((b for b in self.branches if b.id == branch_id), None)`,
returning the index of the first matching branch. -/
def findBranch : List MBranch → List Char → Nat → Option Nat
  | [], _, _ => none
  | b :: rest, bid, i => if b.id = bid then some i else findBranch rest bid (i + 1)

/-- `gently_model.py` `Project.collect_from_branch`; `ts` is the
`datetime.now().strftime` result used by the nested `compact` call.
Returns `none` (and an unchanged project) when the branch id is
unknown. -/
def MProject.collect_from_branch (p : MProject) (ts branch_id name content : List Char) :
    Option MArtifact × MProject :=
  match findBranch p.branches branch_id 0 with
  | none => (none, p)
  | some bi =>
    let branch := p.branches.getD bi default
    let art : MArtifact :=
      { id := "art-".data ++ natToChars p.bucket.length,
        name := name,
        content := content,
        source_branch := branch_id,
        source_depth := branch.depth,
        fork_type := some branch.fork_type,
        stamp_at_capture := (branch.make_stamp p.id p.gates).compact ts }
    let branch' := { branch with artifacts := branch.artifacts ++ [art] }
    (some art,
     { p with branches := p.branches.set bi branch',
              bucket := p.bucket ++ [(bi, branch.artifacts.length)] })

end ModelPy

/-- The parts kept by the `if p` truthiness filter, for one optional
field: present exactly when its guard holds. -/
def optPart (c : Prop) [Decidable c] (part : List Char) : List (List Char) :=
  if c then [part] else []

/-- The field list of a compact stamp as the spec describes it: the
fixed canonical order — protocol marker, branch, depth/max_depth,
parent reference, conversation state, gate snapshot, pin, look, chain,
timestamp — with each optional field present exactly when non-empty.
Written from the spec's words, to be compared with `Stamp.compact`. -/
def specCanonicalParts (r : StampPy.Stamp) (ts : List Char) : List (List Char) :=
  "OLO".data
    :: (optPart (r.branch ≠ []) (tagBranch :: r.branch)
      ++ [tagDepth :: (natToChars r.depth ++ '/' :: natToChars r.max_depth)]
      ++ optPart (r.parent ≠ [])
          (tagParent :: (r.parent ++ '@' :: 'd' :: natToChars r.parent_depth))
      ++ [tagState :: r.state]
      ++ optPart (r.gates ≠ []) (tagGates :: (r.gates.map StampPy.SGate.compact).flatten)
      ++ optPart (r.pin ≠ []) (tagPin :: pyReplace ' ' '-' (r.pin.take 30))
      ++ optPart (r.look ≠ []) (tagLook :: r.look)
      ++ optPart (r.chain ≠ []) (tagChain :: r.chain)
      ++ [tagTime :: ts])

/-- Concrete fixture: a freshly initialized project. -/
def fixtureP0 : TiersPy.Project := TiersPy.Project.init_project
  { id := "olo".data, name := "OLO".data, color := "#0".data, gates := [] }

/-- Concrete fixture timestamp. -/
def fixtureTs : List Char := "1012T0900".data

/-- Concrete fixture: after collecting one artifact (`art-0`). -/
def fixtureP1 : TiersPy.Project :=
  (fixtureP0.collect_artifact fixtureTs ("b0".data) ("n".data) ("c".data)).2

/-- Concrete fixture: after injecting `art-0` (tier 0 frozen, tier 1 active). -/
def fixtureP2 : TiersPy.Project := (fixtureP1.inject fixtureTs ("art-0".data)).2

/-- Concrete fixture: a `gently_model.py` project with one branch `b1`. -/
def fixtureM : ModelPy.MProject :=
  { id := "olo".data, name := "OLO".data, color := "#0".data,
    branches := [⟨"b1".data, "b1".data, .EXPLORE, 0, [], 0, .OPEN, [], [], 0⟩] }

section UtilLemmas

theorem digitChar_spec (k : Nat) (h : k ≤ 9) :
    digitChar k ≠ '|' ∧ digitChar k ≠ '/' ∧ digitChar k ≠ '@' ∧ digitChar k ≠ ']' := by
  interval_cases k <;> exact ⟨by decide, by decide, by decide, by decide⟩

theorem natToCharsAux_mem (fuel n : Nat) (c : Char) (hc : c ∈ natToCharsAux fuel n) :
    ∃ k, k ≤ 9 ∧ c = digitChar k := by
  induction fuel generalizing n with
  | zero => simp [natToCharsAux] at hc
  | succ fuel ih =>
    rw [natToCharsAux] at hc
    by_cases h : n < 10
    · rw [if_pos h] at hc
      simp at hc
      exact ⟨n, by omega, hc⟩
    · rw [if_neg h] at hc
      rcases List.mem_append.mp hc with h1 | h2
      · exact ih _ h1
      · simp at h2
        exact ⟨n % 10, by omega, h2⟩

theorem natToChars_mem (n : Nat) (c : Char) (hc : c ∈ natToChars n) :
    ∃ k, k ≤ 9 ∧ c = digitChar k :=
  natToCharsAux_mem _ _ _ hc

theorem natToChars_ne_nil (n : Nat) : natToChars n ≠ [] := by
  rw [natToChars, natToCharsAux]
  by_cases h : n < 10
  · rw [if_pos h]; simp
  · rw [if_neg h]; simp

theorem digitVal_digitChar (k : Nat) (h : k ≤ 9) :
    digitVal (digitChar k) = some k := by
  interval_cases k <;> rfl

theorem parseNatGo_append (xs ys : List Char) (acc : Nat) :
    parseNatGo (xs ++ ys) acc =
      match parseNatGo xs acc with
      | some a => parseNatGo ys a
      | none => none := by
  induction xs generalizing acc with
  | nil => rfl
  | cons c rest ih =>
    simp only [List.cons_append, parseNatGo]
    cases digitVal c with
    | none => rfl
    | some d => exact ih _

theorem parseNatGo_natToCharsAux (fuel : Nat) :
    ∀ n acc, n < fuel →
      parseNatGo (natToCharsAux fuel n) acc =
        some (acc * 10 ^ (natToCharsAux fuel n).length + n) := by
  induction fuel with
  | zero => intro n acc h; omega
  | succ fuel ih =>
    intro n acc h
    rw [natToCharsAux]
    by_cases h10 : n < 10
    · rw [if_pos h10]
      have hv : digitVal (digitChar n) = some n := digitVal_digitChar n (by omega)
      simp [parseNatGo, hv]
      omega
    · rw [if_neg h10]
      have hdiv : n / 10 < fuel := by
        have h1 : n / 10 < n := Nat.div_lt_self (by omega) (by omega)
        omega
      rw [parseNatGo_append, ih (n / 10) acc hdiv]
      simp only [parseNatGo, digitVal_digitChar (n % 10) (by omega), List.length_append,
        List.length_singleton, Option.some.injEq]
      have hexp : 10 * (acc * 10 ^ (natToCharsAux fuel (n / 10)).length + n / 10) + n % 10 =
          acc * 10 ^ ((natToCharsAux fuel (n / 10)).length + 1) + (10 * (n / 10) + n % 10) := by
        ring
      rw [hexp]
      have hmod : 10 * (n / 10) + n % 10 = n := by omega
      rw [hmod]

theorem parseNat_go (s : List Char) (h : s ≠ []) : parseNat s = parseNatGo s 0 := by
  cases s with
  | nil => exact absurd rfl h
  | cons c rest => rfl

theorem parseNat_natToChars (n : Nat) : parseNat (natToChars n) = some n := by
  rw [parseNat_go _ (natToChars_ne_nil n), natToChars,
    parseNatGo_natToCharsAux (n + 1) n 0 (by omega)]
  simp

theorem pySplit_sepFree (sep : Char) (xs : List Char) (h : sep ∉ xs) :
    pySplit sep xs = [xs] := by
  induction xs with
  | nil => rfl
  | cons c rest ih =>
    have hc : c ≠ sep := fun he => h (by simp [he])
    have hr : sep ∉ rest := fun hm => h (by simp [hm])
    rw [pySplit, if_neg hc, ih hr]

theorem pySplit_append_sep (sep : Char) (xs ys : List Char) (h : sep ∉ xs) :
    pySplit sep (xs ++ sep :: ys) = xs :: pySplit sep ys := by
  induction xs with
  | nil => simp [pySplit]
  | cons c rest ih =>
    have hc : c ≠ sep := fun he => h (by simp [he])
    have hr : sep ∉ rest := fun hm => h (by simp [hm])
    rw [List.cons_append, pySplit, if_neg hc, ih hr]

theorem pySplit_join (sep : Char) (parts : List (List Char)) (hne : parts ≠ [])
    (hfree : ∀ p ∈ parts, sep ∉ p) :
    pySplit sep (pyJoin sep parts) = parts := by
  induction parts with
  | nil => exact absurd rfl hne
  | cons p rest ih =>
    cases rest with
    | nil => exact pySplit_sepFree sep p (hfree p (by simp))
    | cons q qs =>
      have h1 : sep ∉ p := hfree p (List.mem_cons_self p _)
      have h2 : ∀ x ∈ q :: qs, sep ∉ x := fun x hx => hfree x (List.mem_cons_of_mem p hx)
      have h3 : (q :: qs : List (List Char)) ≠ [] := List.cons_ne_nil q qs
      have hstep : pyJoin sep (p :: q :: qs) = p ++ sep :: pyJoin sep (q :: qs) := rfl
      rw [hstep, pySplit_append_sep sep p _ h1, ih h3 h2]

theorem pyStartsWith_append (pre rest : List Char) :
    pyStartsWith pre (pre ++ rest) = true := by
  induction pre with
  | nil => rfl
  | cons c cs ih => simp [pyStartsWith, ih]

theorem pyEndsWith_concat (c : Char) (xs : List Char) :
    pyEndsWith c (xs ++ [c]) = true := by
  rw [pyEndsWith, List.getLast?_concat]
  simp

theorem rsplitAD_cons (a : Char) (rest : List Char) :
    rsplitAD (a :: rest) =
      match rsplitAD rest with
      | some (l, r) => some (a :: l, r)
      | none =>
        if a = '@' then
          match rest with
          | 'd' :: tail => some ([], tail)
          | _ => none
        else none := rfl

theorem rsplitAD_none (s : List Char) (h : '@' ∉ s) : rsplitAD s = none := by
  induction s with
  | nil => rfl
  | cons a rest ih =>
    have ha : a ≠ '@' := fun he => h (by simp [he])
    have hr : '@' ∉ rest := fun hm => h (by simp [hm])
    rw [rsplitAD_cons, ih hr]
    exact if_neg ha

theorem rsplitAD_boundary (xs ds : List Char) (h : '@' ∉ ds) :
    rsplitAD (xs ++ '@' :: 'd' :: ds) = some (xs, ds) := by
  induction xs with
  | nil =>
    have hd : '@' ∉ ('d' :: ds) := by
      intro hm
      rcases List.mem_cons.mp hm with h1 | h2
      · exact absurd h1.symm (by decide)
      · exact h h2
    rw [List.nil_append, rsplitAD_cons, rsplitAD_none _ hd]
    rfl
  | cons x xs ih =>
    rw [List.cons_append, rsplitAD_cons, ih]

theorem pyReplace_free (a b c : Char) (s : List Char) (hs : c ∉ s) (hb : b ≠ c) :
    c ∉ pyReplace a b s := by
  intro hm
  rw [pyReplace] at hm
  rcases List.mem_map.mp hm with ⟨x, hx, he⟩
  by_cases hxa : x = a
  · rw [if_pos hxa] at he; exact hb he
  · rw [if_neg hxa] at he; exact hs (he ▸ hx)

theorem pyReplace_dash_space (s : List Char) :
    pyReplace '-' ' ' (pyReplace ' ' '-' s) = pyReplace '-' ' ' s := by
  rw [pyReplace, pyReplace, pyReplace, List.map_map]
  apply List.map_congr_left
  intro c _
  by_cases h1 : c = ' '
  · simp [h1]
  · by_cases h2 : c = '-' <;> simp [h1, h2]

theorem pyReplace_length (a b : Char) (s : List Char) :
    (pyReplace a b s).length = s.length := by
  rw [pyReplace, List.length_map]

theorem pyReplace_nil (a b : Char) : pyReplace a b [] = [] := rfl

end UtilLemmas

section StampLemmas

open StampPy

theorem natToChars_free (n : Nat) :
    '|' ∉ natToChars n ∧ '/' ∉ natToChars n ∧ '@' ∉ natToChars n := by
  refine ⟨fun hm => ?_, fun hm => ?_, fun hm => ?_⟩ <;>
    · obtain ⟨k, hk, he⟩ := natToChars_mem n _ hm
      have := digitChar_spec k hk
      simp [← he] at this

theorem applyPart_OLO (st : Stamp) : applyPart st ("OLO".data) = .ok st := by
  rw [applyPart, if_pos rfl]

theorem applyPart_OLOList (st : Stamp) : applyPart st (['O', 'L', 'O']) = .ok st :=
  applyPart_OLO st

theorem applyPart_branch (st : Stamp) (v : List Char) :
    applyPart st (tagBranch :: v) = .ok { st with branch := v } := by
  have h1 : (tagBranch :: v) ≠ "OLO".data := by
    intro h
    exact absurd (List.cons_eq_cons.mp h).1 (by decide)
  simp [applyPart, h1]

theorem applyPart_depth (st : Stamp) (d m : Nat) :
    applyPart st (tagDepth :: (natToChars d ++ '/' :: natToChars m)) =
      .ok { st with depth := d, max_depth := m } := by
  have h1 : (tagDepth :: (natToChars d ++ '/' :: natToChars m)) ≠ "OLO".data := by
    intro h
    exact absurd (List.cons_eq_cons.mp h).1 (by decide)
  have h2 : tagDepth ≠ tagBranch := by decide
  have hsplit : pySplit '/' (natToChars d ++ '/' :: natToChars m) =
      [natToChars d, natToChars m] := by
    rw [pySplit_append_sep _ _ _ (natToChars_free d).2.1,
      pySplit_sepFree _ _ (natToChars_free m).2.1]
  simp [applyPart, h1, h2, hsplit, parseNat_natToChars]

theorem applyPart_parent (st : Stamp) (v : List Char) (n : Nat) :
    applyPart st (tagParent :: (v ++ '@' :: 'd' :: natToChars n)) =
      .ok { st with parent := v, parent_depth := n } := by
  have h1 : (tagParent :: (v ++ '@' :: 'd' :: natToChars n)) ≠ "OLO".data := by
    intro h
    exact absurd (List.cons_eq_cons.mp h).1 (by decide)
  have h2 : tagParent ≠ tagBranch := by decide
  have h3 : tagParent ≠ tagDepth := by decide
  have hrs := rsplitAD_boundary v (natToChars n) (natToChars_free n).2.2
  simp [applyPart, h1, h2, h3, hrs, parseNat_natToChars]

theorem applyPart_state (st : Stamp) (v : List Char) :
    applyPart st (tagState :: v) = .ok { st with state := v } := by
  have h1 : (tagState :: v) ≠ "OLO".data := by
    intro h
    exact absurd (List.cons_eq_cons.mp h).1 (by decide)
  have h2 : tagState ≠ tagBranch := by decide
  have h3 : tagState ≠ tagDepth := by decide
  have h4 : tagState ≠ tagParent := by decide
  simp [applyPart, h1, h2, h3, h4]

theorem applyPart_gates (st : Stamp) (v : List Char) :
    applyPart st (tagGates :: v) = .ok { st with gates := st.gates ++ parseGates v } := by
  have h1 : (tagGates :: v) ≠ "OLO".data := by
    intro h
    exact absurd (List.cons_eq_cons.mp h).1 (by decide)
  have h2 : tagGates ≠ tagBranch := by decide
  have h3 : tagGates ≠ tagDepth := by decide
  have h4 : tagGates ≠ tagParent := by decide
  have h5 : tagGates ≠ tagState := by decide
  simp [applyPart, h1, h2, h3, h4, h5]

theorem applyPart_pin (st : Stamp) (v : List Char) :
    applyPart st (tagPin :: v) = .ok { st with pin := pyReplace '-' ' ' v } := by
  have h1 : (tagPin :: v) ≠ "OLO".data := by
    intro h
    exact absurd (List.cons_eq_cons.mp h).1 (by decide)
  have h2 : tagPin ≠ tagBranch := by decide
  have h3 : tagPin ≠ tagDepth := by decide
  have h4 : tagPin ≠ tagParent := by decide
  have h5 : tagPin ≠ tagState := by decide
  have h6 : tagPin ≠ tagGates := by decide
  simp [applyPart, h1, h2, h3, h4, h5, h6]

theorem applyPart_look (st : Stamp) (v : List Char) :
    applyPart st (tagLook :: v) = .ok { st with look := v } := by
  have h1 : (tagLook :: v) ≠ "OLO".data := by
    intro h
    exact absurd (List.cons_eq_cons.mp h).1 (by decide)
  have h2 : tagLook ≠ tagBranch := by decide
  have h3 : tagLook ≠ tagDepth := by decide
  have h4 : tagLook ≠ tagParent := by decide
  have h5 : tagLook ≠ tagState := by decide
  have h6 : tagLook ≠ tagGates := by decide
  have h7 : tagLook ≠ tagPin := by decide
  simp [applyPart, h1, h2, h3, h4, h5, h6, h7]

theorem applyPart_chain (st : Stamp) (v : List Char) :
    applyPart st (tagChain :: v) = .ok { st with chain := v } := by
  have h1 : (tagChain :: v) ≠ "OLO".data := by
    intro h
    exact absurd (List.cons_eq_cons.mp h).1 (by decide)
  have h2 : tagChain ≠ tagBranch := by decide
  have h3 : tagChain ≠ tagDepth := by decide
  have h4 : tagChain ≠ tagParent := by decide
  have h5 : tagChain ≠ tagState := by decide
  have h6 : tagChain ≠ tagGates := by decide
  have h7 : tagChain ≠ tagPin := by decide
  have h8 : tagChain ≠ tagLook := by decide
  simp [applyPart, h1, h2, h3, h4, h5, h6, h7, h8]

theorem applyPart_time (st : Stamp) (v : List Char) :
    applyPart st (tagTime :: v) = .ok { st with timestamp := v } := by
  have h1 : (tagTime :: v) ≠ "OLO".data := by
    intro h
    exact absurd (List.cons_eq_cons.mp h).1 (by decide)
  have h2 : tagTime ≠ tagBranch := by decide
  have h3 : tagTime ≠ tagDepth := by decide
  have h4 : tagTime ≠ tagParent := by decide
  have h5 : tagTime ≠ tagState := by decide
  have h6 : tagTime ≠ tagGates := by decide
  have h7 : tagTime ≠ tagPin := by decide
  have h8 : tagTime ≠ tagLook := by decide
  have h9 : tagTime ≠ tagChain := by decide
  simp [applyPart, h1, h2, h3, h4, h5, h6, h7, h8, h9]

theorem runParts_cons_ok {st st' : Stamp} {p : List Char}
    (h : applyPart st p = .ok st') (ps : List (List Char)) :
    runParts st (p :: ps) = runParts st' ps := by
  simp [runParts, h]

theorem runParts_optPart {c : Prop} [Decidable c] {part : List Char} {st st' : Stamp}
    (hok : applyPart st part = .ok st') (hneg : ¬c → st' = st) (ps : List (List Char)) :
    runParts st (optPart c part ++ ps) = runParts st' ps := by
  by_cases hc : c
  · rw [optPart, if_pos hc]
    exact runParts_cons_ok hok ps
  · rw [optPart, if_neg hc, List.nil_append, hneg hc]

theorem parseGates_flatten (gs : List SGate)
    (hg : ∀ g ∈ gs, (∃ a, g.letter = [a]) ∧ ∃ b, g.state = [b]) :
    parseGates ((gs.map SGate.compact).flatten) =
      gs.map (fun g => ⟨g.letter, [], g.state⟩) := by
  induction gs with
  | nil => rfl
  | cons g rest ih =>
    obtain ⟨⟨a, ha⟩, b, hb⟩ := hg g (List.mem_cons_self g rest)
    have hrest : ∀ x ∈ rest, (∃ a, x.letter = [a]) ∧ ∃ b, x.state = [b] :=
      fun x hx => hg x (List.mem_cons_of_mem g hx)
    have hshape : (List.map SGate.compact (g :: rest)).flatten =
        a :: b :: (List.map SGate.compact rest).flatten := by
      simp [SGate.compact, ha, hb]
    have hstep : ∀ zs : List Char,
        parseGates (a :: b :: zs) = ⟨[a], [], [b]⟩ :: parseGates zs := fun zs => rfl
    rw [hshape, hstep, ih hrest]
    simp [ha, hb]

theorem gateStr_free (gs : List SGate)
    (hg : ∀ g ∈ gs, (∃ a, g.letter = [a] ∧ a ≠ '|') ∧ ∃ b, g.state = [b] ∧ b ≠ '|') :
    '|' ∉ (gs.map SGate.compact).flatten := by
  induction gs with
  | nil => simp
  | cons g rest ih =>
    obtain ⟨⟨a, ha, hane⟩, b, hb, hbne⟩ := hg g (List.mem_cons_self g rest)
    have hrest := ih (fun x hx => hg x (List.mem_cons_of_mem g hx))
    simp only [List.map_cons, List.flatten_cons, SGate.compact, ha, hb]
    intro hm
    rcases List.mem_append.mp hm with h1 | h2
    · rcases List.mem_append.mp h1 with h3 | h4
      · simp at h3; exact hane h3.symm
      · simp at h4; exact hbne h4.symm
    · exact hrest h2

theorem gateStr_ne_nil (gs : List SGate) (hne : gs ≠ [])
    (hg : ∀ g ∈ gs, (∃ a, g.letter = [a] ∧ a ≠ '|') ∧ ∃ b, g.state = [b] ∧ b ≠ '|') :
    (gs.map SGate.compact).flatten ≠ [] := by
  cases gs with
  | nil => exact absurd rfl hne
  | cons g rest =>
    obtain ⟨⟨a, ha, _⟩, _⟩ := hg g (List.mem_cons_self g rest)
    simp [SGate.compact, ha]

end StampLemmas

section CompactShape

open StampPy

theorem optPart_subset {c : Prop} [Decidable c] {x p : List Char}
    (h : p ∈ optPart c x) : p = x := by
  by_cases hc : c
  · rw [optPart, if_pos hc] at h
    simpa using h
  · rw [optPart, if_neg hc] at h
    simp at h

theorem pin_short_ne_nil (pin : List Char) (h : pin ≠ []) :
    pyReplace ' ' '-' (pin.take 30) ≠ [] := by
  cases pin with
  | nil => exact absurd rfl h
  | cons c rest => simp [pyReplace]

theorem compact_filter (r : Stamp) (ts : List Char)
    (hg : ∀ g ∈ r.gates, (∃ a, g.letter = [a] ∧ a ≠ '|') ∧ ∃ b, g.state = [b] ∧ b ≠ '|') :
    r.compact ts = '[' :: (pyJoin '|' (specCanonicalParts r ts) ++ [']']) := by
  have hgiff : ((r.gates.map SGate.compact).flatten = []) ↔ (r.gates = []) := by
    constructor
    · intro h
      by_contra hgn
      exact gateStr_ne_nil r.gates hgn hg h
    · intro h
      rw [h]
      rfl
  have hpiniff : (pyReplace ' ' '-' (r.pin.take 30) = []) ↔ (r.pin = []) := by
    constructor
    · intro h
      by_contra hpn
      exact pin_short_ne_nil r.pin hpn h
    · intro h
      rw [h]
      rfl
  by_cases hb : r.branch = [] <;> by_cases hp : r.parent = [] <;>
    by_cases hgs : r.gates = [] <;> by_cases hpn : r.pin = [] <;>
    by_cases hlk : r.look = [] <;> by_cases hch : r.chain = [] <;>
    simp [Stamp.compact, specCanonicalParts, optPart, hgiff, hpiniff,
      hb, hp, hgs, hpn, hlk, hch, List.filter]

theorem wrapper_of_shape (P' : List (List Char)) (hne : P' ≠ []) :
    pyStartsWith ("[OLO|".data) ('[' :: (pyJoin '|' ("OLO".data :: P') ++ [']'])) = true ∧
    pyEndsWith ']' ('[' :: (pyJoin '|' ("OLO".data :: P') ++ [']'])) = true := by
  obtain ⟨q, qs, rfl⟩ := List.exists_cons_of_ne_nil hne
  constructor
  · have hsh : ('[' :: (pyJoin '|' ("OLO".data :: q :: qs) ++ [']'])) =
        "[OLO|".data ++ (pyJoin '|' (q :: qs) ++ [']']) := by
      show ('[' :: (("OLO".data ++ '|' :: pyJoin '|' (q :: qs)) ++ [']'])) = _
      simp
    rw [hsh]
    exact pyStartsWith_append _ _
  · have hsh : ('[' :: (pyJoin '|' ("OLO".data :: q :: qs) ++ [']'])) =
        ('[' :: pyJoin '|' ("OLO".data :: q :: qs)) ++ [']'] := by simp
    rw [hsh]
    exact pyEndsWith_concat _ _

theorem inner_of_shape (J : List Char) :
    ((('[' :: (J ++ [']'])).drop 1).dropLast) = J := by
  simp

theorem specCanonicalParts_tail_ne_nil (r : Stamp) (ts : List Char) :
    (optPart (r.branch ≠ []) (tagBranch :: r.branch)
      ++ [tagDepth :: (natToChars r.depth ++ '/' :: natToChars r.max_depth)]
      ++ optPart (r.parent ≠ [])
          (tagParent :: (r.parent ++ '@' :: 'd' :: natToChars r.parent_depth))
      ++ [tagState :: r.state]
      ++ optPart (r.gates ≠ []) (tagGates :: (r.gates.map SGate.compact).flatten)
      ++ optPart (r.pin ≠ []) (tagPin :: pyReplace ' ' '-' (r.pin.take 30))
      ++ optPart (r.look ≠ []) (tagLook :: r.look)
      ++ optPart (r.chain ≠ []) (tagChain :: r.chain)
      ++ [tagTime :: ts]) ≠ [] := by
  simp

theorem specCanonicalParts_free (r : Stamp) (ts : List Char)
    (hb : '|' ∉ r.branch) (hp : '|' ∉ r.parent) (hst : '|' ∉ r.state)
    (hpin : '|' ∉ r.pin) (hl : '|' ∉ r.look) (hc : '|' ∉ r.chain) (hts : '|' ∉ ts)
    (hg : ∀ g ∈ r.gates, (∃ a, g.letter = [a] ∧ a ≠ '|') ∧ ∃ b, g.state = [b] ∧ b ≠ '|') :
    ∀ p ∈ specCanonicalParts r ts, '|' ∉ p := by
  intro p hmem
  rw [specCanonicalParts] at hmem
  rcases List.mem_cons.mp hmem with rfl | hmem
  · decide
  · have hcases := hmem
    simp only [List.mem_append] at hcases
    rcases hcases with (((((((h1 | h2) | h3) | h4) | h5) | h6) | h7) | h8) | h9
    · rw [optPart_subset h1]
      intro hm
      rcases List.mem_cons.mp hm with he | hm
      · exact absurd he (by decide)
      · exact hb hm
    · rw [List.mem_singleton.mp h2]
      intro hm
      rcases List.mem_cons.mp hm with he | hm
      · exact absurd he (by decide)
      · rcases List.mem_append.mp hm with hd | hm
        · exact (natToChars_free r.depth).1 hd
        · rcases List.mem_cons.mp hm with he | hd
          · exact absurd he (by decide)
          · exact (natToChars_free r.max_depth).1 hd
    · rw [optPart_subset h3]
      intro hm
      rcases List.mem_cons.mp hm with he | hm
      · exact absurd he (by decide)
      · rcases List.mem_append.mp hm with hd | hm
        · exact hp hd
        · rcases List.mem_cons.mp hm with he | hm
          · exact absurd he (by decide)
          · rcases List.mem_cons.mp hm with he | hd
            · exact absurd he (by decide)
            · exact (natToChars_free r.parent_depth).1 hd
    · rw [List.mem_singleton.mp h4]
      intro hm
      rcases List.mem_cons.mp hm with he | hm
      · exact absurd he (by decide)
      · exact hst hm
    · rw [optPart_subset h5]
      intro hm
      rcases List.mem_cons.mp hm with he | hm
      · exact absurd he (by decide)
      · exact gateStr_free r.gates hg hm
    · rw [optPart_subset h6]
      intro hm
      rcases List.mem_cons.mp hm with he | hm
      · exact absurd he (by decide)
      · exact pyReplace_free ' ' '-' '|' (r.pin.take 30)
          (fun hx => hpin (List.take_subset 30 r.pin hx)) (by decide) hm
    · rw [optPart_subset h7]
      intro hm
      rcases List.mem_cons.mp hm with he | hm
      · exact absurd he (by decide)
      · exact hl hm
    · rw [optPart_subset h8]
      intro hm
      rcases List.mem_cons.mp hm with he | hm
      · exact absurd he (by decide)
      · exact hc hm
    · rw [List.mem_singleton.mp h9]
      intro hm
      rcases List.mem_cons.mp hm with he | hm
      · exact absurd he (by decide)
      · exact hts hm

theorem compact_parts (r : Stamp) (ts : List Char)
    (hb : '|' ∉ r.branch) (hp : '|' ∉ r.parent) (hst : '|' ∉ r.state)
    (hpin : '|' ∉ r.pin) (hl : '|' ∉ r.look) (hc : '|' ∉ r.chain) (hts : '|' ∉ ts)
    (hg : ∀ g ∈ r.gates, (∃ a, g.letter = [a] ∧ a ≠ '|') ∧ ∃ b, g.state = [b] ∧ b ≠ '|') :
    pySplit '|' (((r.compact ts).drop 1).dropLast) = specCanonicalParts r ts := by
  rw [compact_filter r ts hg, inner_of_shape]
  exact pySplit_join '|' _ (by rw [specCanonicalParts]; exact List.cons_ne_nil _ _)
    (specCanonicalParts_free r ts hb hp hst hpin hl hc hts hg)

theorem compact_wrapper (r : Stamp) (ts : List Char)
    (hg : ∀ g ∈ r.gates, (∃ a, g.letter = [a] ∧ a ≠ '|') ∧ ∃ b, g.state = [b] ∧ b ≠ '|') :
    pyStartsWith ("[OLO|".data) (r.compact ts) = true ∧
    pyEndsWith ']' (r.compact ts) = true := by
  rw [compact_filter r ts hg, specCanonicalParts]
  exact wrapper_of_shape _ (specCanonicalParts_tail_ne_nil r ts)

theorem runParts_canonical (r : Stamp) (ts : List Char)
    (hpd : r.parent = [] → r.parent_depth = 0)
    (hg : ∀ g ∈ r.gates, (∃ a, g.letter = [a]) ∧ ∃ b, g.state = [b]) :
    runParts {} (specCanonicalParts r ts) =
      .ok { branch := r.branch, depth := r.depth, max_depth := r.max_depth,
            parent := r.parent, parent_depth := r.parent_depth, state := r.state,
            gates := r.gates.map
              (fun g => { letter := g.letter, question := [], state := g.state }),
            pin := pyReplace '-' ' ' (r.pin.take 30),
            look := r.look, chain := r.chain, timestamp := ts } := by
  have hpg := parseGates_flatten r.gates hg
  by_cases hb : r.branch = [] <;> by_cases hp : r.parent = [] <;>
    by_cases hgs : r.gates = [] <;> by_cases hpn : r.pin = [] <;>
    by_cases hlk : r.look = [] <;> by_cases hch : r.chain = [] <;>
    simp [specCanonicalParts, optPart, hb, hp, hgs, hpn, hlk, hch, hpd, hpg,
      runParts, applyPart_OLO, applyPart_OLOList, applyPart_branch, applyPart_depth,
      applyPart_parent,
      applyPart_state, applyPart_gates, applyPart_pin, applyPart_look,
      applyPart_chain, applyPart_time, pyReplace_dash_space, pyReplace_nil]

theorem parse_compact_of_wrapper (line : List Char)
    (hs : pyStartsWith ("[OLO|".data) line = true) (he : pyEndsWith ']' line = true) :
    parse_compact line =
      match runParts {} (pySplit '|' ((line.drop 1).dropLast)) with
      | .ok st => .ok (some st)
      | .error e => .error e := by
  rw [parse_compact, hs, he]
  exact if_pos (by decide)

end CompactShape

section TiersLemmas

open TiersPy

theorem set_concat_length {α : Type} (front : List α) (x y : α) (n : Nat)
    (h : n = front.length) : (front ++ [x]).set n y = front ++ [y] := by
  subst h
  simp

theorem getD_concat_length {α : Type} [Inhabited α] (front : List α) (x d : α) (n : Nat)
    (h : n = front.length) : (front ++ [x]).getD n d = x := by
  subst h
  simp [List.getD]

theorem lastUnfrozen_concat_unfrozen (l : List Tier) (t : Tier) (h : t.frozen = false) :
    lastUnfrozen (l ++ [t]) = some l.length := by
  induction l with
  | nil => simp [lastUnfrozen, h]
  | cons a rest ih => simp [lastUnfrozen, ih]

theorem levelsIdx_concat (l : List Tier) (x : Tier) :
    levelsIdx (l ++ [x]) ↔ levelsIdx l ∧ x.level = l.length := by
  constructor
  · intro h
    refine ⟨fun i t hit => h i t ?_, h l.length x ?_⟩
    · have hlt : i < l.length := by
        rcases List.getElem?_eq_some.mp hit with ⟨hl, _⟩
        exact hl
      rw [List.getElem?_append_left hlt]
      exact hit
    · simp
  · rintro ⟨h1, h2⟩ i t hit
    have hlen : i < l.length + 1 := by
      rcases List.getElem?_eq_some.mp hit with ⟨hl, _⟩
      simpa using hl
    by_cases hi : i < l.length
    · rw [List.getElem?_append_left hi] at hit
      exact h1 i t hit
    · have heq : i = l.length := by omega
      subst heq
      simp at hit
      rw [← hit]
      exact h2

theorem current_tier_inv (p : Project) (front : List Tier) (last : Tier)
    (htiers : p.tiers = front ++ [last]) (hlast : last.frozen = false) :
    p.current_tier = (front.length, p) := by
  rw [Project.current_tier, htiers, lastUnfrozen_concat_unfrozen front last hlast]

theorem fork_shape (p : Project) (ts nm : List Char) (ft : ForkType)
    (front : List Tier) (last : Tier)
    (htiers : p.tiers = front ++ [last]) (hlast : last.frozen = false) :
    ∃ b : Branch,
      p.branch_from_master ts nm ft =
        (b, { p with tiers := front ++ [{ last with branches := last.branches ++ [b] }] }) := by
  refine ⟨(p.branch_from_master ts nm ft).1, ?_⟩
  rw [Project.branch_from_master, current_tier_inv p front last htiers hlast]
  simp only [htiers, getD_concat_length front last default front.length rfl,
    set_concat_length front last _ front.length rfl]

theorem collect_shape (p : Project) (ts bid nm c : List Char)
    (front : List Tier) (last : Tier)
    (htiers : p.tiers = front ++ [last]) (hlast : last.frozen = false) :
    ∃ a : TArtifact,
      p.collect_artifact ts bid nm c =
        (a, { p with artifacts := p.artifacts ++ [a],
                     bucket := p.bucket ++ [p.artifacts.length] }) ∧
      a.source_branch = some bid ∧ a.origin = .MANUAL ∧
      a.id = "art-".data ++ natToChars p.artifacts.length := by
  refine ⟨(p.collect_artifact ts bid nm c).1, ?_, ?_, ?_, ?_⟩ <;>
    rw [Project.collect_artifact, current_tier_inv p front last htiers hlast]

theorem inject_none_shape (p : Project) (ts aid : List Char)
    (hfind : bucketFind p.artifacts p.bucket aid = none) :
    p.inject ts aid = (none, p) := by
  rw [Project.inject, hfind]

theorem inject_shape (p : Project) (ts aid : List Char) (j : Nat)
    (front : List Tier) (last : Tier)
    (htiers : p.tiers = front ++ [last]) (hlast : last.frozen = false)
    (hfind : bucketFind p.artifacts p.bucket aid = some j) :
    ∃ a : TArtifact,
      p.inject ts aid =
        (some (front.length + 1, a),
         { p with
             tiers := front
               ++ [{ last with frozen := true,
                               frozen_stamp := last.make_stamp ts p.id p.gates,
                               promoted_by := aid }]
               ++ [{ level := front.length + 1,
                     master_pin := "promoted from tier ".data ++ natToChars last.level }],
             artifacts := (p.artifacts.set j
               { p.artifacts.getD j default with status := "injected".data }) ++ [a] }) ∧
      a.origin = .TIER_AUTO ∧ a.source_branch = none ∧
      a.id = "tier-".data ++ natToChars last.level ++ "-auto".data ∧
      a.stamp_at_creation = last.make_stamp ts p.id p.gates := by
  refine ⟨((p.inject ts aid).2).artifacts.getD
    ((p.artifacts.set j { p.artifacts.getD j default with
        status := "injected".data }).length) default, ?_, ?_, ?_, ?_, ?_⟩ <;>
  · rw [Project.inject, hfind]
    simp only [Project.current_tier, htiers,
      lastUnfrozen_concat_unfrozen front last hlast,
      getD_concat_length front last default front.length rfl,
      set_concat_length front last _ front.length rfl,
      Project.new_tier]
    simp [getD_concat_length, set_concat_length, List.getElem_append_right]

theorem levelsIdx_two_concat (front : List Tier) (x y : Tier)
    (hl : levelsIdx (front ++ [x])) (hy : y.level = front.length + 1) :
    levelsIdx (front ++ [x] ++ [y]) := by
  rw [levelsIdx_concat]
  exact ⟨hl, by simpa using hy⟩

theorem inv_step {p p' : Project} (hI : Inv p) (hs : Step p p') : Inv p' := by
  obtain ⟨⟨front, last, htiers, hfront, hlast⟩, hlvl, hbuck⟩ := hI
  have hlvl2 := hlvl
  rw [htiers, levelsIdx_concat] at hlvl2
  cases hs with
  | fork ts nm ft =>
    obtain ⟨b, heq⟩ := fork_shape p ts nm ft front last htiers hlast
    rw [heq]
    refine ⟨⟨front, _, rfl, hfront, by simp [hlast]⟩, ?_, hbuck⟩
    rw [levelsIdx_concat]
    exact ⟨hlvl2.1, by simpa using hlvl2.2⟩
  | collect ts bid nm c =>
    obtain ⟨a, heq, _, _, _⟩ := collect_shape p ts bid nm c front last htiers hlast
    rw [heq]
    refine ⟨⟨front, last, htiers, hfront, hlast⟩, hlvl, ?_⟩
    intro i hi
    simp only [List.mem_append, List.mem_singleton] at hi
    rcases hi with hi | hi
    · have := hbuck i hi
      simp
      omega
    · simp [hi]
  | injectOp ts aid =>
    cases hfind : bucketFind p.artifacts p.bucket aid with
    | none =>
      rw [inject_none_shape p ts aid hfind]
      exact ⟨⟨front, last, htiers, hfront, hlast⟩, hlvl, hbuck⟩
    | some j =>
      obtain ⟨a, heq, _, _, _, _⟩ := inject_shape p ts aid j front last htiers hlast hfind
      rw [heq]
      refine ⟨⟨front ++ [_], _, rfl, ?_, rfl⟩, ?_, ?_⟩
      · intro t ht
        rcases List.mem_append.mp ht with ht | ht
        · exact hfront t ht
        · simp at ht
          rw [ht]
      · exact levelsIdx_two_concat front _ _
          (by rw [levelsIdx_concat]; exact ⟨hlvl2.1, by simpa using hlvl2.2⟩)
          (by simp)
      · intro i hi
        have := hbuck i hi
        simp
        omega
  | curTier =>
    rw [show p.current_tier.2 = p from by
      rw [current_tier_inv p front last htiers hlast]]
    exact ⟨⟨front, last, htiers, hfront, hlast⟩, hlvl, hbuck⟩

theorem inv_reachable {p : Project} (hR : Reachable p) : Inv p := by
  induction hR with
  | init id nm color gates =>
    refine ⟨⟨[], { level := 0 }, ?_, by simp, rfl⟩, ?_, ?_⟩
    · simp [Project.init_project, Project.new_tier]
    · intro i t hit
      simp only [Project.init_project, Project.new_tier] at hit
      cases i with
      | zero =>
        simp at hit
        rw [← hit]
      | succ k =>
        simp at hit
    · intro i hi
      simp [Project.init_project, Project.new_tier] at hi
  | step _ hs ih => exact inv_step ih hs

theorem step_tiers_len {p p' : Project} (hI : Inv p) (hs : Step p p') :
    p.tiers.length ≤ p'.tiers.length := by
  obtain ⟨⟨front, last, htiers, hfront, hlast⟩, hlvl, hbuck⟩ := hI
  cases hs with
  | fork ts nm ft =>
    obtain ⟨b, heq⟩ := fork_shape p ts nm ft front last htiers hlast
    rw [heq, htiers]
    simp
  | collect ts bid nm c =>
    obtain ⟨a, heq, _, _, _⟩ := collect_shape p ts bid nm c front last htiers hlast
    rw [heq]
  | injectOp ts aid =>
    cases hfind : bucketFind p.artifacts p.bucket aid with
    | none => rw [inject_none_shape p ts aid hfind]
    | some j =>
      obtain ⟨a, heq, _, _, _, _⟩ := inject_shape p ts aid j front last htiers hlast hfind
      rw [heq, htiers]
      simp
  | curTier =>
    rw [current_tier_inv p front last htiers hlast]

end TiersLemmas

section Claims3

open TiersPy

/-- C3: Tier invariants.  In every project state reachable from
`init_project` by engine operations, every tier's level equals its
index in the tier list (the count of tiers created before it), at most
one tier is unfrozen, and the tier list is append-only across any
further operation: its length never shrinks and the level stored at
every existing index is preserved, so levels grow by exactly 1 with
each promotion. -/
theorem c3_tier_invariants (p : Project) (hR : Reachable p) :
    levelsIdx p.tiers ∧
    (p.tiers.filter (fun t => !t.frozen)).length ≤ 1 ∧
    (∀ p', Step p p' → p.tiers.length ≤ p'.tiers.length ∧
      ∀ (i : Nat) (t t' : Tier), p.tiers[i]? = some t → p'.tiers[i]? = some t' →
        t'.level = t.level) := by
  obtain ⟨⟨front, last, htiers, hfront, hlast⟩, hlvl, hbuck⟩ := inv_reachable hR
  have hI : Inv p := ⟨⟨front, last, htiers, hfront, hlast⟩, hlvl, hbuck⟩
  refine ⟨hlvl, ?_, ?_⟩
  · rw [htiers, List.filter_append]
    have h1 : front.filter (fun t => !t.frozen) = [] := by
      simp only [List.filter_eq_nil_iff]
      intro a ha
      simp [hfront a ha]
    rw [h1]
    simp [hlast]
  · intro p' hs
    obtain ⟨_, hlvl2, _⟩ := inv_step hI hs
    refine ⟨step_tiers_len hI hs, ?_⟩
    intro i t t' ht ht'
    rw [hlvl2 i t' ht', hlvl i t ht]

/-- Witness for C3 at the freshly initialized project. -/
theorem c3_tier_invariants_witness :
    levelsIdx (Project.init_project
      { id := "olo".data, name := "OLO".data, color := "#0".data, gates := [] }).tiers ∧
    ((Project.init_project
      { id := "olo".data, name := "OLO".data, color := "#0".data,
        gates := [] }).tiers.filter (fun t => !t.frozen)).length ≤ 1 ∧
    (∀ p', Step (Project.init_project
        { id := "olo".data, name := "OLO".data, color := "#0".data, gates := [] }) p' →
      (Project.init_project
        { id := "olo".data, name := "OLO".data, color := "#0".data,
          gates := [] }).tiers.length ≤ p'.tiers.length ∧
      ∀ (i : Nat) (t t' : Tier), (Project.init_project
          { id := "olo".data, name := "OLO".data, color := "#0".data,
            gates := [] }).tiers[i]? = some t → p'.tiers[i]? = some t' →
        t'.level = t.level) :=
  c3_tier_invariants _ (Reachable.init ("olo".data) ("OLO".data) ("#0".data) [])

/-- C8: Frozen is permanent and frozen tiers are read-only.  From any
reachable project state, a tier whose frozen flag is set is left
entirely unchanged (same record, including its branches, level, stamp
and promoted_by, still at the same index) by every further engine
operation — in particular it is never unfrozen and never again the
tier frozen by a later inject. -/
theorem c8_frozen_permanent (p p' : Project) (hR : Reachable p) (hs : Step p p') :
    ∀ (i : Nat) (t : Tier), p.tiers[i]? = some t → t.frozen = true →
      p'.tiers[i]? = some t := by
  obtain ⟨⟨front, last, htiers, hfront, hlast⟩, hlvl, hbuck⟩ := inv_reachable hR
  intro i t hit hfz
  have hlen : i < front.length + 1 := by
    have h1 := (List.getElem?_eq_some.mp hit).1
    rw [htiers] at h1
    simpa using h1
  have hi : i < front.length := by
    by_contra hge
    have heq : i = front.length := by omega
    subst heq
    rw [htiers] at hit
    simp at hit
    rw [← hit] at hfz
    rw [hlast] at hfz
    exact Bool.false_ne_true hfz
  have hfrontget : front[i]? = some t := by
    rw [htiers, List.getElem?_append_left hi] at hit
    exact hit
  cases hs with
  | fork ts nm ft =>
    obtain ⟨b, heq⟩ := fork_shape p ts nm ft front last htiers hlast
    rw [heq]
    show (front ++ _)[i]? = some t
    rw [List.getElem?_append_left hi]
    exact hfrontget
  | collect ts bid nm c =>
    obtain ⟨a, heq, _, _, _⟩ := collect_shape p ts bid nm c front last htiers hlast
    rw [heq]
    rw [htiers, List.getElem?_append_left hi]
    exact hfrontget
  | injectOp ts aid =>
    cases hfind : bucketFind p.artifacts p.bucket aid with
    | none =>
      rw [inject_none_shape p ts aid hfind]
      rw [htiers, List.getElem?_append_left hi]
      exact hfrontget
    | some j =>
      obtain ⟨a, heq, _, _, _, _⟩ := inject_shape p ts aid j front last htiers hlast hfind
      rw [heq]
      show (front ++ _ ++ _)[i]? = some t
      rw [List.getElem?_append_left (by simp; omega),
        List.getElem?_append_left hi]
      exact hfrontget
  | curTier =>
    rw [current_tier_inv p front last htiers hlast]
    rw [htiers, List.getElem?_append_left hi]
    exact hfrontget

end Claims3

section Claims4

open TiersPy

theorem bucketFind_cons (arts : List TArtifact) (i : Nat) (rest : List Nat)
    (aid : List Char) :
    bucketFind arts (i :: rest) aid =
      match arts.get? i with
      | some a => if a.id = aid then some i else bucketFind arts rest aid
      | none => bucketFind arts rest aid := rfl

theorem bucketFind_cons_some (arts : List TArtifact) (i : Nat) (rest : List Nat)
    (aid : List Char) (a : TArtifact) (ha : arts.get? i = some a) :
    bucketFind arts (i :: rest) aid =
      if a.id = aid then some i else bucketFind arts rest aid := by
  rw [bucketFind_cons, ha]

theorem bucketFind_cons_none (arts : List TArtifact) (i : Nat) (rest : List Nat)
    (aid : List Char) (ha : arts.get? i = none) :
    bucketFind arts (i :: rest) aid = bucketFind arts rest aid := by
  rw [bucketFind_cons, ha]

theorem bucketFind_none_of (arts : List TArtifact) (bucket : List Nat) (aid : List Char)
    (h : ∀ i ∈ bucket, ∀ a : TArtifact, arts.get? i = some a → a.id ≠ aid) :
    bucketFind arts bucket aid = none := by
  induction bucket with
  | nil => rfl
  | cons i rest ih =>
    have hrest := ih (fun x hx => h x (by simp [hx]))
    cases ha : arts.get? i with
    | none => rw [bucketFind_cons_none arts i rest aid ha]; exact hrest
    | some a =>
      rw [bucketFind_cons_some arts i rest aid a ha,
        if_neg (h i (by simp) a ha)]
      exact hrest

theorem bucketFind_preserved (arts arts' : List TArtifact) (bucket : List Nat)
    (aid : List Char) (j : Nat)
    (hwf : ∀ i ∈ bucket, i < arts.length)
    (hsame : ∀ i, i < arts.length →
      ∃ a a', arts.get? i = some a ∧ arts'.get? i = some a' ∧ a'.id = a.id)
    (hfind : bucketFind arts bucket aid = some j) :
    bucketFind arts' bucket aid = some j := by
  induction bucket with
  | nil => simp [bucketFind] at hfind
  | cons i rest ih =>
    have hi : i < arts.length := hwf i (by simp)
    obtain ⟨a, a', ha, ha', hid⟩ := hsame i hi
    rw [bucketFind_cons_some arts i rest aid a ha] at hfind
    rw [bucketFind_cons_some arts' i rest aid a' ha']
    by_cases hcase : a.id = aid
    · rw [if_pos hcase] at hfind
      rw [if_pos (by rw [hid]; exact hcase)]
      exact hfind
    · rw [if_neg hcase] at hfind
      rw [if_neg (by rw [hid]; exact hcase)]
      exact ih (fun x hx => hwf x (by simp [hx])) hfind

set_option maxRecDepth 4000 in
theorem inject_artifacts_shape (p : Project) (ts aid : List Char) (j : Nat)
    (hfind : bucketFind p.artifacts p.bucket aid = some j) :
    ∃ a : TArtifact,
      ((p.inject ts aid).2).artifacts =
        (p.artifacts.set j
          { p.artifacts.getD j default with status := "injected".data }) ++ [a] ∧
      ((p.inject ts aid).2).bucket = p.bucket := by
  refine ⟨((p.inject ts aid).2).artifacts.getD
    ((p.artifacts.set j { p.artifacts.getD j default with
        status := "injected".data }).length) default, ?_, ?_⟩ <;>
  · rw [Project.inject, hfind]
    cases h2 : lastUnfrozen p.tiers with
    | none =>
      simp [Project.current_tier, h2, Project.new_tier, getD_concat_length]
    | some i =>
      simp [Project.current_tier, h2, Project.new_tier, getD_concat_length]

theorem getD_of_getElem? {α : Type} [Inhabited α] (l : List α) (i : Nat) (x d : α)
    (h : l[i]? = some x) : l.getD i d = x := by
  simp [List.getD, List.get?_eq_getElem?, h]

theorem getElem?_concat_len {α : Type} (l : List α) (x : α) (n : Nat)
    (h : n = l.length) : (l ++ [x])[n]? = some x := by
  subst h
  simp

/-- C2: Promotion postcondition.  From any reachable project state, if
the bucket resolves the given artifact id (first match at index `j`),
then `inject` freezes the previously active tier in place, storing its
frozen stamp and `promoted_by`; creates exactly one new tier at level
one above the old active tier's level, which becomes the new current
tier; appends exactly one TIER_AUTO artifact with no source branch to
the artifact list without adding it to the bucket; sets the injected
artifact's status to `injected`; and changes nothing else. -/
theorem c2_promotion_postcondition (p : Project) (ts aid : List Char) (j : Nat)
    (hR : Reachable p) (hfind : bucketFind p.artifacts p.bucket aid = some j) :
    ∃ a : TArtifact,
      (p.inject ts aid).1 = some (p.tiers.length, a) ∧
      a.origin = ArtifactOrigin.TIER_AUTO ∧ a.source_branch = none ∧
      (p.inject ts aid).2.tiers.length = p.tiers.length + 1 ∧
      (p.inject ts aid).2.artifacts.length = p.artifacts.length + 1 ∧
      (p.inject ts aid).2.artifacts[p.artifacts.length]? = some a ∧
      (p.inject ts aid).2.bucket = p.bucket ∧
      p.artifacts.length ∉ p.bucket ∧
      (∀ t : Tier, p.tiers[p.tiers.length - 1]? = some t →
        t.frozen = false ∧
        (p.inject ts aid).2.tiers[p.tiers.length - 1]? =
          some { t with frozen := true,
                        frozen_stamp := t.make_stamp ts p.id p.gates,
                        promoted_by := aid } ∧
        (p.inject ts aid).2.tiers[p.tiers.length]? =
          some { level := t.level + 1,
                 master_pin := "promoted from tier ".data ++ natToChars t.level }) ∧
      (p.inject ts aid).2.current_tier = (p.tiers.length, (p.inject ts aid).2) ∧
      (∀ a₀ : TArtifact, p.artifacts[j]? = some a₀ →
        (p.inject ts aid).2.artifacts[j]? = some { a₀ with status := "injected".data }) ∧
      (∀ k : Nat, k ≠ j → k < p.artifacts.length →
        (p.inject ts aid).2.artifacts[k]? = p.artifacts[k]?) ∧
      (∀ i : Nat, i < p.tiers.length - 1 →
        (p.inject ts aid).2.tiers[i]? = p.tiers[i]?) := by
  obtain ⟨⟨front, last, htiers, hfront, hlast⟩, hlvl, hbuck⟩ := inv_reachable hR
  have hlastlvl : last.level = front.length := by
    have := hlvl
    rw [htiers, levelsIdx_concat] at this
    exact this.2
  obtain ⟨a, heq, horig, hsb, _, _⟩ := inject_shape p ts aid j front last htiers hlast hfind
  have hlen : p.tiers.length = front.length + 1 := by rw [htiers]; simp
  refine ⟨a, ?_, horig, hsb, ?_, ?_, ?_, ?_, ?_, ?_, ?_, ?_, ?_, ?_⟩
  · rw [heq, hlen]
  · rw [heq, hlen]
    simp
  · rw [heq]
    simp
  · rw [heq]
    simp only []
    have hsl : (p.artifacts.set j
        { p.artifacts.getD j default with status := "injected".data }).length =
        p.artifacts.length := by simp
    rw [← hsl, List.getElem?_concat_length]
  · rw [heq]
  · intro hmem
    exact absurd (hbuck _ hmem) (lt_irrefl _)
  · intro t ht
    rw [hlen] at ht
    simp only [Nat.add_sub_cancel] at ht
    rw [htiers, getElem?_concat_len front last front.length rfl] at ht
    have ht2 : last = t := Option.some.inj ht
    refine ⟨?_, ?_, ?_⟩
    · rw [← ht2]
      exact hlast
    · rw [heq, hlen]
      simp only [Nat.add_sub_cancel]
      rw [List.getElem?_append_left (by simp),
        getElem?_concat_len front _ front.length rfl, ← ht2]
    · rw [heq, hlen, getElem?_concat_len _ _ _ (by simp), ← ht2, hlastlvl]
  · rw [heq, hlen]
    show Project.current_tier _ = _
    rw [Project.current_tier]
    simp only []
    rw [lastUnfrozen_concat_unfrozen _ _ rfl]
    simp
  · intro a₀ ha₀
    have hj : j < p.artifacts.length := (List.getElem?_eq_some.mp ha₀).1
    have hgd : p.artifacts.getD j default = a₀ := getD_of_getElem? _ _ _ _ ha₀
    rw [heq]
    show ((p.artifacts.set j _) ++ [a])[j]? = _
    rw [List.getElem?_append_left (by simpa using hj), List.getElem?_set_self (by simpa using hj),
      hgd]
  · intro k hk hklen
    rw [heq]
    show ((p.artifacts.set j _) ++ [a])[k]? = _
    rw [List.getElem?_append_left (by simpa using hklen),
      List.getElem?_set_ne (Ne.symm hk)]
  · intro i hi
    rw [hlen] at hi
    simp only [Nat.add_sub_cancel] at hi
    rw [heq, htiers]
    show ((front ++ [_]) ++ [_])[i]? = _
    rw [List.getElem?_append_left (by simp; omega), List.getElem?_append_left hi,
      List.getElem?_append_left hi]

/-- Witness for C2 at the concrete fixture run. -/
theorem c2_promotion_postcondition_witness :
    ((fixtureP1.inject fixtureTs ("art-0".data)).1).isSome = true ∧
    (fixtureP1.inject fixtureTs ("art-0".data)).2.tiers.length = 2 ∧
    (fixtureP1.inject fixtureTs ("art-0".data)).2.bucket = fixtureP1.bucket := by
  obtain ⟨a, h1, _, _, h4, _, _, h7, _⟩ :=
    c2_promotion_postcondition fixtureP1 fixtureTs ("art-0".data) 0
      (Reachable.step (Reachable.init ("olo".data) ("OLO".data) ("#0".data) [])
        (Step.collect fixtureP0 fixtureTs ("b0".data) ("n".data) ("c".data)))
      (by decide)
  refine ⟨?_, ?_, h7⟩
  · rw [h1]
    rfl
  · rw [h4]
    decide

theorem bucketFind_some_spec (arts : List TArtifact) (bucket : List Nat)
    (aid : List Char) (j : Nat) (h : bucketFind arts bucket aid = some j) :
    ∃ a, arts.get? j = some a ∧ a.id = aid := by
  induction bucket with
  | nil => simp [bucketFind] at h
  | cons i rest ih =>
    cases ha : arts.get? i with
    | none =>
      rw [bucketFind_cons_none _ _ _ _ ha] at h
      exact ih h
    | some a =>
      rw [bucketFind_cons_some _ _ _ _ a ha] at h
      by_cases hc : a.id = aid
      · rw [if_pos hc] at h
        have hij := Option.some.inj h
        subst hij
        exact ⟨a, ha, hc⟩
      · rw [if_neg hc] at h
        exact ih h

/-- C6: Inject with an unknown artifact id is an atomic no-op: when no
bucket entry resolves to an artifact with the given id, `inject`
returns no result and the project state — tiers, frozen flags,
branches, artifacts, bucket, gates — is returned unchanged. -/
theorem c6_inject_unknown_noop (p : Project) (ts aid : List Char)
    (h : ∀ i ∈ p.bucket, ∀ a : TArtifact, p.artifacts.get? i = some a → a.id ≠ aid) :
    p.inject ts aid = (none, p) :=
  inject_none_shape p ts aid (bucketFind_none_of p.artifacts p.bucket aid h)

/-- Witness for C6: an unknown id against the fixture bucket. -/
theorem c6_inject_unknown_noop_witness :
    fixtureP1.inject fixtureTs ("zzz".data) = (none, fixtureP1) :=
  c6_inject_unknown_noop fixtureP1 fixtureTs ("zzz".data)
    (by
      intro i hi a ha hax
      have hb : fixtureP1.bucket = [0] := by decide
      rw [hb] at hi
      simp at hi
      subst hi
      have he : some a = some (fixtureP1.artifacts.getD 0 default) :=
        ha.symm.trans (by decide)
      rw [Option.some.inj he] at hax
      exact absurd hax (by decide))

/-- C10: Bucket membership is append-only.  `collect_artifact` is the
only engine operation that extends the bucket (by the new artifact's
index) and none removes an entry: fork, inject and `current_tier`
leave the bucket exactly as it was.  `inject` changes only the found
artifact's status (all other artifact entries are untouched), so a
second lookup of the same id still finds the same artifact at the same
bucket position. -/
theorem c10_bucket_append_only :
    (∀ (p : Project) (ts nm : List Char) (ft : ForkType),
      ((p.branch_from_master ts nm ft).2).bucket = p.bucket) ∧
    (∀ (p : Project) (ts bid nm c : List Char),
      ((p.collect_artifact ts bid nm c).2).bucket = p.bucket ++ [p.artifacts.length]) ∧
    (∀ (p : Project) (ts aid : List Char), ((p.inject ts aid).2).bucket = p.bucket) ∧
    (∀ p : Project, (p.current_tier.2).bucket = p.bucket) ∧
    (∀ (p : Project) (ts aid : List Char) (j : Nat),
      (∀ i ∈ p.bucket, i < p.artifacts.length) →
      bucketFind p.artifacts p.bucket aid = some j →
      (∀ a₀ : TArtifact, p.artifacts[j]? = some a₀ →
        ((p.inject ts aid).2).artifacts[j]? =
          some { a₀ with status := "injected".data }) ∧
      (∀ k : Nat, k ≠ j → k < p.artifacts.length →
        ((p.inject ts aid).2).artifacts[k]? = p.artifacts[k]?) ∧
      bucketFind ((p.inject ts aid).2).artifacts ((p.inject ts aid).2).bucket aid =
        some j) := by
  refine ⟨?_, ?_, ?_, ?_, ?_⟩
  · intro p ts nm ft
    cases h : lastUnfrozen p.tiers <;>
      simp [Project.branch_from_master, Project.current_tier, h, Project.new_tier]
  · intro p ts bid nm c
    cases h : lastUnfrozen p.tiers <;>
      simp [Project.collect_artifact, Project.current_tier, h, Project.new_tier]
  · intro p ts aid
    cases hfind : bucketFind p.artifacts p.bucket aid with
    | none => rw [inject_none_shape p ts aid hfind]
    | some j => exact (inject_artifacts_shape p ts aid j hfind).choose_spec.2
  · intro p
    cases h : lastUnfrozen p.tiers <;>
      simp [Project.current_tier, h, Project.new_tier]
  · intro p ts aid j hwf hfind
    obtain ⟨a, hart, hbk⟩ := inject_artifacts_shape p ts aid j hfind
    obtain ⟨aj, haj, hajid⟩ := bucketFind_some_spec p.artifacts p.bucket aid j hfind
    have hjlen : j < p.artifacts.length := by
      rw [List.get?_eq_getElem?] at haj
      exact (List.getElem?_eq_some.mp haj).1
    refine ⟨?_, ?_, ?_⟩
    · intro a₀ ha₀
      have hgd : p.artifacts.getD j default = a₀ := getD_of_getElem? _ _ _ _ ha₀
      rw [hart]
      show ((p.artifacts.set j _) ++ [a])[j]? = _
      rw [List.getElem?_append_left (by simpa using hjlen),
        List.getElem?_set_self (by simpa using hjlen), hgd]
    · intro k hk hklen
      rw [hart]
      show ((p.artifacts.set j _) ++ [a])[k]? = _
      rw [List.getElem?_append_left (by simpa using hklen),
        List.getElem?_set_ne (Ne.symm hk)]
    · rw [hart, hbk]
      refine bucketFind_preserved p.artifacts _ p.bucket aid j hwf ?_ hfind
      intro i hi
      have hgi : p.artifacts[i]? = some p.artifacts[i] := List.getElem?_eq_getElem hi
      by_cases hij : i = j
      · subst hij
        refine ⟨p.artifacts[i], { p.artifacts[i] with status := "injected".data },
          ?_, ?_, rfl⟩
        · rw [List.get?_eq_getElem?]
          exact hgi
        · rw [List.get?_eq_getElem?]
          show ((p.artifacts.set i _) ++ [a])[i]? = _
          rw [List.getElem?_append_left (by simpa using hi),
            List.getElem?_set_self (by simpa using hi),
            getD_of_getElem? _ _ _ default hgi]
      · refine ⟨p.artifacts[i], p.artifacts[i], ?_, ?_, rfl⟩
        · rw [List.get?_eq_getElem?]
          exact hgi
        · rw [List.get?_eq_getElem?]
          show ((p.artifacts.set j _) ++ [a])[i]? = _
          rw [List.getElem?_append_left (by simpa using hi),
            List.getElem?_set_ne (Ne.symm hij)]
          exact hgi

/-- Witness for C10 at the concrete fixture run. -/
theorem c10_bucket_append_only_witness :
    ((fixtureP1.branch_from_master fixtureTs ("x".data) .EXPLORE).2).bucket =
      fixtureP1.bucket ∧
    ((fixtureP1.inject fixtureTs ("art-0".data)).2).bucket = fixtureP1.bucket ∧
    bucketFind ((fixtureP1.inject fixtureTs ("art-0".data)).2).artifacts
      ((fixtureP1.inject fixtureTs ("art-0".data)).2).bucket ("art-0".data) = some 0 :=
  ⟨c10_bucket_append_only.1 fixtureP1 fixtureTs ("x".data) .EXPLORE,
   c10_bucket_append_only.2.2.1 fixtureP1 fixtureTs ("art-0".data),
   (c10_bucket_append_only.2.2.2.2 fixtureP1 fixtureTs ("art-0".data) 0
     (by decide) (by decide)).2.2⟩

theorem findBranch_none (l : List ModelPy.MBranch) (bid : List Char)
    (h : ∀ b ∈ l, b.id ≠ bid) : ∀ k, ModelPy.findBranch l bid k = none := by
  induction l with
  | nil => intro k; rfl
  | cons b rest ih =>
    intro k
    have hstep : ModelPy.findBranch (b :: rest) bid k =
        if b.id = bid then some k else ModelPy.findBranch rest bid (k + 1) := rfl
    rw [hstep, if_neg (h b (by simp))]
    exact ih (fun x hx => h x (by simp [hx])) (k + 1)

/-- C7 counterexample: the freshly initialized project has no branch
at all, yet `collect_artifact` with the unknown branch id `"ghost"`
still appends a new entry to the bucket and returns an artifact whose
`source_branch` is `"ghost"` — it does not fail silently. -/
theorem c7_collect_unknown_counterexample :
    (∀ t ∈ fixtureP0.tiers, t.branches = []) ∧
    ((fixtureP0.collect_artifact fixtureTs ("ghost".data) ("n".data) ("c".data)).2).bucket =
      fixtureP0.bucket ++ [0] ∧
    ((fixtureP0.collect_artifact fixtureTs ("ghost".data) ("n".data)
      ("c".data)).1).source_branch = some ("ghost".data) :=
  ⟨by decide, by decide, by decide⟩

/-- C7 (amended): `gently_tiers.py`'s `collect_artifact` does not
validate the branch id — for every branch id, known or not, it creates
a MANUAL artifact recording that id and appends it to both the
artifact list and the bucket.  The silent unknown-branch failure
exists only in `gently_model.py`'s `collect_from_branch`: when the
branch id matches no branch it returns no result and leaves the
project (branches and bucket) unchanged. -/
theorem c7_collect_validation :
    (∀ (p : Project) (ts bid nm c : List Char),
      ((p.collect_artifact ts bid nm c).2).bucket = p.bucket ++ [p.artifacts.length] ∧
      ((p.collect_artifact ts bid nm c).2).artifacts.length = p.artifacts.length + 1 ∧
      ((p.collect_artifact ts bid nm c).1).source_branch = some bid) ∧
    (∀ (p : ModelPy.MProject) (ts bid nm c : List Char),
      (∀ b ∈ p.branches, b.id ≠ bid) →
      p.collect_from_branch ts bid nm c = (none, p)) := by
  constructor
  · intro p ts bid nm c
    refine ⟨?_, ?_, ?_⟩ <;>
    · cases h : lastUnfrozen p.tiers <;>
        simp [Project.collect_artifact, Project.current_tier, h, Project.new_tier]
  · intro p ts bid nm c h
    rw [ModelPy.MProject.collect_from_branch, findBranch_none p.branches bid h 0]

/-- Witness for C7: collect with an unknown branch id on the tiers
fixture, and a no-op unknown-branch collect on the model fixture. -/
theorem c7_collect_validation_witness :
    ((fixtureP0.collect_artifact fixtureTs ("ghost2".data) ("n".data)
      ("c".data)).1).source_branch = some ("ghost2".data) ∧
    fixtureM.collect_from_branch fixtureTs ("zz".data) ("n".data) ("c".data) =
      (none, fixtureM) :=
  ⟨(c7_collect_validation.1 fixtureP0 fixtureTs ("ghost2".data) ("n".data) ("c".data)).2.2,
   c7_collect_validation.2 fixtureM fixtureTs ("zz".data) ("n".data) ("c".data)
     (by
       intro b hb
       simp [fixtureM] at hb
       rw [hb]
       decide)⟩

/-- Witness for C8 at the concrete fixture run with a frozen tier 0. -/
theorem c8_frozen_permanent_witness :
    ((fixtureP2.branch_from_master fixtureTs ("x".data) .EXPLORE).2).tiers[0]? =
      some (fixtureP2.tiers.getD 0 default) :=
  c8_frozen_permanent fixtureP2 _
    (Reachable.step (Reachable.step
      (Reachable.init ("olo".data) ("OLO".data) ("#0".data) [])
      (Step.collect fixtureP0 fixtureTs ("b0".data) ("n".data) ("c".data)))
      (Step.injectOp fixtureP1 fixtureTs ("art-0".data)))
    (Step.fork fixtureP2 fixtureTs ("x".data) .EXPLORE)
    0 (fixtureP2.tiers.getD 0 default) (by decide) (by decide)

end Claims4

section Claims1

open StampPy

/-- C1: Stamp codec round-trip.  For every checkpoint record `r` whose
fields are drawn from the declared domains (free-text fields without
the `|` separator, one-character gate letters and state glyphs, the
parent reference absent exactly when the parent name is empty) and
every separator-free timestamp, parsing the compact encoding of `r`
reproduces branch, depth, max_depth, state, the ordered gate
letter+state pairs, parent and parent_depth, look and chain exactly,
and reproduces pin up to replacing spaces by the `-` placeholder and
truncating to 30 characters (gate questions are lost, decoded empty). -/
theorem c1_stamp_roundtrip (r : Stamp) (ts : List Char)
    (hb : '|' ∉ r.branch) (hp : '|' ∉ r.parent) (hst : '|' ∉ r.state)
    (hpin : '|' ∉ r.pin) (hl : '|' ∉ r.look) (hc : '|' ∉ r.chain) (hts : '|' ∉ ts)
    (hg : ∀ g ∈ r.gates, (∃ a, g.letter = [a] ∧ a ≠ '|') ∧ ∃ b, g.state = [b] ∧ b ≠ '|')
    (hpd : r.parent = [] → r.parent_depth = 0) :
    parse_compact (r.compact ts) =
      .ok (some
        { branch := r.branch, depth := r.depth, max_depth := r.max_depth,
          parent := r.parent, parent_depth := r.parent_depth, state := r.state,
          gates := r.gates.map
            (fun g => { letter := g.letter, question := [], state := g.state }),
          pin := pyReplace '-' ' ' (r.pin.take 30),
          look := r.look, chain := r.chain, timestamp := ts }) := by
  obtain ⟨hs, he⟩ := compact_wrapper r ts hg
  have hrun := runParts_canonical r ts hpd
    (fun g hgm => ⟨⟨(hg g hgm).1.choose, (hg g hgm).1.choose_spec.1⟩,
      ⟨(hg g hgm).2.choose, (hg g hgm).2.choose_spec.1⟩⟩)
  rw [parse_compact_of_wrapper _ hs he,
    compact_parts r ts hb hp hst hpin hl hc hts hg, hrun]

/-- Witness for C1 at a fully populated concrete record. -/
theorem c1_stamp_roundtrip_witness :
    parse_compact
      ((({ branch := "olo/blue".data, depth := 7, max_depth := 12,
           parent := "jpeg-base".data, parent_depth := 4, state := "OPEN".data,
           gates := [⟨['A'], "q1".data, [glyphYes]⟩, ⟨['B'], "q2".data, [glyphRevisit]⟩],
           pin := "blue dies in JPEG".data, look := "lk".data,
           chain := "core3->".data, timestamp := [] } : Stamp).compact)
        ("1012T0900".data)) =
      .ok (some
        { branch := "olo/blue".data, depth := 7, max_depth := 12,
          parent := "jpeg-base".data, parent_depth := 4, state := "OPEN".data,
          gates := [⟨['A'], [], [glyphYes]⟩, ⟨['B'], [], [glyphRevisit]⟩],
          pin := "blue dies in JPEG".data, look := "lk".data,
          chain := "core3->".data, timestamp := "1012T0900".data }) := by
  have h := c1_stamp_roundtrip
    { branch := "olo/blue".data, depth := 7, max_depth := 12,
      parent := "jpeg-base".data, parent_depth := 4, state := "OPEN".data,
      gates := [⟨['A'], "q1".data, [glyphYes]⟩, ⟨['B'], "q2".data, [glyphRevisit]⟩],
      pin := "blue dies in JPEG".data, look := "lk".data,
      chain := "core3->".data, timestamp := [] }
    ("1012T0900".data)
    (by decide) (by decide) (by decide) (by decide) (by decide) (by decide) (by decide)
    (by
      intro g hgm
      rcases List.mem_cons.mp hgm with rfl | hgm
      · exact ⟨⟨'A', rfl, by decide⟩, glyphYes, rfl, by decide⟩
      · rcases List.mem_cons.mp hgm with rfl | hgm
        · exact ⟨⟨'B', rfl, by decide⟩, glyphRevisit, rfl, by decide⟩
        · simp at hgm)
    (by decide)
  rw [h]
  rfl

end Claims1

section Claims2

open StampPy

/-- C5: Decode rejection.  For every input that does not start with
`[OLO|` or does not end with `]`, `parse_compact` returns no result
(`.ok none`: Python's `None`, not a raised exception); in particular
on `"not a stamp"`. -/
theorem c5_decode_rejection :
    (∀ line : List Char,
      pyStartsWith ("[OLO|".data) line = false ∨ pyEndsWith ']' line = false →
        parse_compact line = .ok none) ∧
    parse_compact ("not a stamp".data) = .ok none := by
  constructor
  · intro line h
    rw [parse_compact]
    rcases h with h | h <;> rw [h] <;> simp
  · rfl

/-- Witness for C5: the wrapper check fails on `"not a stamp"`. -/
theorem c5_decode_rejection_witness :
    parse_compact ("not a stamp!".data) = .ok none :=
  c5_decode_rejection.1 _ (Or.inl (by decide))

theorem tiers_cycle_OPEN (l q : List Char) :
    TiersPy.TGate.cycle ⟨l, q, .OPEN⟩ = ⟨l, q, .HALF⟩ := rfl

theorem tiers_cycle_HALF (l q : List Char) :
    TiersPy.TGate.cycle ⟨l, q, .HALF⟩ = ⟨l, q, .YES⟩ := rfl

theorem tiers_cycle_YES (l q : List Char) :
    TiersPy.TGate.cycle ⟨l, q, .YES⟩ = ⟨l, q, .NO⟩ := rfl

theorem tiers_cycle_NO (l q : List Char) :
    TiersPy.TGate.cycle ⟨l, q, .NO⟩ = ⟨l, q, .OPEN⟩ := by
  have h : TiersPy.TGate.cycle ⟨l, q, .NO⟩ =
      ⟨l, q, TiersPy.gateOrder.getD
        ((TiersPy.gateOrder.indexOf TiersPy.GateState.NO + 1) %
          TiersPy.gateOrder.length) .OPEN⟩ := rfl
  rw [h]
  exact congrArg (fun s => TiersPy.TGate.mk l q s) (by decide)

theorem tiers_cycle_REVISIT (l q : List Char) :
    TiersPy.TGate.cycle ⟨l, q, .REVISIT⟩ = ⟨l, q, .REVISIT⟩ := rfl

/-- C4 counterexample: in `gently_tiers.py`, cycling a gate whose
state is REVISIT yields a gate whose state is again REVISIT, so one
application of `cycle` does produce the REVISIT state (from the
REVISIT starting state), contradicting "cycle never produces the
BLOCKED or REVISIT state from any starting state". -/
theorem c4_gate_cycle_counterexample :
    (TiersPy.TGate.cycle ⟨['B'], [], TiersPy.GateState.REVISIT⟩).state =
      TiersPy.GateState.REVISIT := rfl

/-- C4 (amended): in both implementations a gate in
{OPEN, HALF, YES, NO} advances one step along the cycle, wrapping, and
four applications restore the gate.  In `stamp.py` the result of
`cycle` lies in the four-state cycle from every starting state (so
never BLOCKED or REVISIT; BLOCKED/REVISIT fall back to index 0 and
cycle to HALF).  In `gently_tiers.py` (which has no BLOCKED state) a
REVISIT gate is left unchanged by `cycle`, so `cycle` never moves a
gate into REVISIT from a different state but does leave a REVISIT gate
in REVISIT. -/
theorem c4_gate_cycle :
    (∀ s : List Char, cycleState s ∈ GATE_CYCLE) ∧
    (∀ g : SGate,
      (g.state = [glyphOpen] → g.cycle.state = [glyphHalf]) ∧
      (g.state = [glyphHalf] → g.cycle.state = [glyphYes]) ∧
      (g.state = [glyphYes] → g.cycle.state = [glyphNo]) ∧
      (g.state = [glyphNo] → g.cycle.state = [glyphOpen]) ∧
      (g.state ∈ GATE_CYCLE → g.cycle.cycle.cycle.cycle = g)) ∧
    (∀ g : TiersPy.TGate,
      (g.state = .OPEN → g.cycle.state = .HALF) ∧
      (g.state = .HALF → g.cycle.state = .YES) ∧
      (g.state = .YES → g.cycle.state = .NO) ∧
      (g.state = .NO → g.cycle.state = .OPEN) ∧
      (g.state ∈ TiersPy.gateOrder → g.cycle.cycle.cycle.cycle = g) ∧
      (g.cycle.state = .REVISIT → g.state = .REVISIT)) := by
  have c1 : cycleState [glyphOpen] = [glyphHalf] := by decide
  have c2 : cycleState [glyphHalf] = [glyphYes] := by decide
  have c3 : cycleState [glyphYes] = [glyphNo] := by decide
  have c4 : cycleState [glyphNo] = [glyphOpen] := by decide
  refine ⟨?_, ?_, ?_⟩
  · intro s
    show GATE_CYCLE.getD
      (((GATE_CYCLE.indexOf? s).getD 0 + 1) % GATE_CYCLE.length) [] ∈ GATE_CYCLE
    have hk : ((GATE_CYCLE.indexOf? s).getD 0 + 1) % GATE_CYCLE.length < 4 :=
      Nat.mod_lt _ (by decide)
    set k := ((GATE_CYCLE.indexOf? s).getD 0 + 1) % GATE_CYCLE.length with hkdef
    interval_cases k <;> decide
  · intro g
    cases g with
    | mk l q s =>
      refine ⟨?_, ?_, ?_, ?_, ?_⟩ <;> intro h
      · simp only [SGate.cycle] at *
        simp [h, c1]
      · simp only [SGate.cycle] at *
        simp [h, c2]
      · simp only [SGate.cycle] at *
        simp [h, c3]
      · simp only [SGate.cycle] at *
        simp [h, c4]
      · simp only [GATE_CYCLE, List.mem_cons] at h
        rcases h with rfl | h
        · simp [SGate.cycle, c1, c2, c3, c4]
        · rcases h with rfl | h
          · simp [SGate.cycle, c1, c2, c3, c4]
          · rcases h with rfl | h
            · simp [SGate.cycle, c1, c2, c3, c4]
            · rcases h with rfl | h
              · simp [SGate.cycle, c1, c2, c3, c4]
              · simp at h
  · intro g
    cases g with
    | mk l q s =>
      cases s <;>
        refine ⟨?_, ?_, ?_, ?_, ?_, ?_⟩ <;> intro h <;>
        simp_all [tiers_cycle_OPEN, tiers_cycle_HALF, tiers_cycle_YES,
          tiers_cycle_NO, tiers_cycle_REVISIT, TiersPy.gateOrder]

/-- Witness for C4: concrete instances of the amended cycling law. -/
theorem c4_gate_cycle_witness :
    cycleState [glyphBlocked] ∈ GATE_CYCLE ∧
    (SGate.cycle ⟨['A'], [], [glyphOpen]⟩).state = [glyphHalf] ∧
    (TiersPy.TGate.cycle ⟨['A'], [], .YES⟩).state = .NO :=
  ⟨c4_gate_cycle.1 [glyphBlocked],
   (c4_gate_cycle.2.1 ⟨['A'], [], [glyphOpen]⟩).1 rfl,
   (c4_gate_cycle.2.2 ⟨['A'], [], .YES⟩).2.2.1 rfl⟩

/-- C9 counterexample: `compact` of an all-default record still
renders the depth field (`📍0/0`) and the conversation-state field
(`⚡OPEN`) although depth, max_depth and state all hold their default
values, contradicting "each field is rendered only when it is
non-empty/non-default". -/
theorem c9_field_rendering_counterexample :
    ({} : Stamp).depth = 0 ∧ ({} : Stamp).max_depth = 0 ∧
    ({} : Stamp).state = "OPEN".data ∧
    [tagDepth, '0', '/', '0'] ∈
      pySplit '|' (((({} : Stamp).compact ("1012T0900".data)).drop 1).dropLast) ∧
    (tagState :: "OPEN".data) ∈
      pySplit '|' (((({} : Stamp).compact ("1012T0900".data)).drop 1).dropLast) := by
  refine ⟨rfl, rfl, rfl, by decide, by decide⟩

/-- C9 (amended): splitting the inside of a compact stamp on `|`
yields exactly the spec's canonical field sequence: protocol marker,
branch, depth/max_depth, parent reference, conversation state, gate
snapshot, pin, look, chain, timestamp, in that fixed order, where
branch, parent, gates, pin, look and chain are present exactly when
non-empty (omitted together with their separator otherwise), while
the protocol marker, the depth/max_depth field, the state field and
the timestamp are always rendered, even at default values. -/
theorem c9_field_rendering (r : Stamp) (ts : List Char)
    (hb : '|' ∉ r.branch) (hp : '|' ∉ r.parent) (hst : '|' ∉ r.state)
    (hpin : '|' ∉ r.pin) (hl : '|' ∉ r.look) (hc : '|' ∉ r.chain) (hts : '|' ∉ ts)
    (hg : ∀ g ∈ r.gates, (∃ a, g.letter = [a] ∧ a ≠ '|') ∧ ∃ b, g.state = [b] ∧ b ≠ '|') :
    pySplit '|' (((r.compact ts).drop 1).dropLast) = specCanonicalParts r ts :=
  compact_parts r ts hb hp hst hpin hl hc hts hg

/-- Witness for C9 at the all-default record. -/
theorem c9_field_rendering_witness :
    pySplit '|' (((({} : Stamp).compact ("1012T0900".data)).drop 1).dropLast) =
      specCanonicalParts {} ("1012T0900".data) :=
  c9_field_rendering {} ("1012T0900".data) (by decide) (by decide) (by decide)
    (by decide) (by decide) (by decide) (by decide)
    (by intro g hgm; simp at hgm)

end Claims2
